import Mathlib

/-!
Verification development for the VirtualCore virtual-list engine
(source: src/VirtualCore.ts).

The TypeScript class is embedded shallowly as a pure state machine:
the mutable instance becomes a `VirtualCore` structure, every public
method becomes a function `VirtualCore → ... → VirtualCore × List Event`,
and the injected callbacks (`onScroll`, `onComplete`, `onAbort`,
`onTotalHeightChange`) become emitted `Event`s.  A `ScrollToCallbacks`
record is identified by an opaque-free numeric tag `cb : Nat`, so that
an event records which session's callback fired.  JavaScript numbers are
modelled as `Int` (the algorithm only adds, subtracts and compares);
array indices are `Nat`.
-/

/-- Per-row position record (source interface `ItemPosition`). -/
structure ItemPosition where
  index : Nat
  height : Int
  top : Int
  bottom : Int
deriving DecidableEq

instance : Inhabited ItemPosition := ⟨⟨0, 0, 0, 0⟩⟩

/-- A single height-update request (source interface `HeightUpdate`). -/
structure HeightUpdate where
  index : Nat
  height : Int
deriving DecidableEq

/-- Result of the render-range query (source interface `RenderRange`).
`endIndex` is an `Int` because the empty-list answer is `-1`. -/
structure RenderRange where
  startIndex : Nat
  endIndex : Int
  offset : Int
  anchorIndex : Nat
deriving DecidableEq

/-- Scroll-to session status (source type `ScrollToStatus`). -/
inductive ScrollToStatus where
  | idle
  | scrolling
  | waiting
deriving DecidableEq

/-- Scroll-to session context (source interface `ScrollToContext`).
The `callbacks` record of the source is represented by the tag `cb`. -/
structure ScrollToContext where
  targetIndex : Nat
  lastTop : Int
  iterations : Nat
  maxIterations : Nat
  threshold : Int
  cb : Nat
  status : ScrollToStatus
  pendingHeightUpdate : Bool
deriving DecidableEq

/-- Optional arguments of `scrollToIndex` (source interface `ScrollToOptions`). -/
structure ScrollToOptions where
  threshold : Option Int
  maxIterations : Option Nat
deriving DecidableEq

/-- The mutable state of a `VirtualCore` instance. -/
structure VirtualCore where
  total : Nat
  defaultHeight : Int
  buffer : Nat
  positions : List ItemPosition
  scrollToCtx : Option ScrollToContext
deriving DecidableEq

namespace VirtualCore

/-- Observable callback invocations.  `heightChange` stands for
`onTotalHeightChange`; the other three carry the tag of the
`ScrollToCallbacks` record they are delivered to. -/
inductive Event where
  | onScroll (cb : Nat) (targetTop : Int)
  | onComplete (cb : Nat) (finalTop : Int) (iterations : Nat)
  | onAbort (cb : Nat) (reason : String)
  | heightChange (totalHeight : Int)
deriving DecidableEq

/-- `true` for the two terminal session callbacks. -/
def Event.isTerminal : Event → Bool
  | .onComplete _ _ _ => true
  | .onAbort _ _ => true
  | _ => false

/-- `true` exactly for `onComplete` events. -/
def Event.isComplete : Event → Bool
  | .onComplete _ _ _ => true
  | _ => false

/-- The callback tag an event is delivered to, if any. -/
def Event.cbTag : Event → Option Nat
  | .onScroll c _ => some c
  | .onComplete c _ _ => some c
  | .onAbort c _ => some c
  | .heightChange _ => none

/-- `this.positions[i]` — JS array read, out of range yields the
(unreachable) default record. -/
def pget (ps : List ItemPosition) (i : Nat) : ItemPosition :=
  ps.getD i default

/-- Source `getTotalHeight`. -/
def getTotalHeight (vc : VirtualCore) : Int :=
  if vc.total = 0 ∨ vc.positions.length = 0 then 0
  else if vc.positions.length ≤ vc.total - 1 then 0
  else (pget vc.positions (vc.total - 1)).bottom

/-- The rows built by the loop of `_initPositions`:
`{index: i, height: dh, top: i*dh, bottom: (i+1)*dh}` for `i < total`. -/
def initRows (total : Nat) (dh : Int) : List ItemPosition :=
  (List.range total).map fun i =>
    { index := i, height := dh, top := (i : Int) * dh, bottom := ((i : Int) + 1) * dh }

/-- Source `_initPositions` (rebuild the table, then `_notifyHeightChange`). -/
def initPositions (vc : VirtualCore) : VirtualCore × List Event :=
  let vc' := { vc with positions := initRows vc.total vc.defaultHeight }
  (vc', [Event.heightChange (getTotalHeight vc')])

/-- Source constructor (`buffer ?? 5`, then `_initPositions`). -/
def create (total : Nat) (defaultHeight : Int) (buffer : Option Nat) :
    VirtualCore × List Event :=
  initPositions
    { total := total, defaultHeight := defaultHeight, buffer := buffer.getD 5,
      positions := [], scrollToCtx := none }

/-- Source `isScrolling`. -/
def isScrolling (vc : VirtualCore) : Bool :=
  vc.scrollToCtx.isSome

/-- Source `_abortScrollTo`: clear the session first, then fire `onAbort`. -/
def abortScrollToCore (vc : VirtualCore) (reason : String) : VirtualCore × List Event :=
  match vc.scrollToCtx with
  | none => (vc, [])
  | some ctx => ({ vc with scrollToCtx := none }, [Event.onAbort ctx.cb reason])

/-- Source `_doScroll`: mark the session `scrolling`, bump the iteration
counter, reset the pending flag and issue `onScroll`.  (The
promise/microtask plumbing that later calls `notifyScrollComplete` is the
environment's move and is modelled by calling `notifyScrollComplete`
explicitly.) -/
def doScroll (vc : VirtualCore) (targetTop : Int) : VirtualCore × List Event :=
  match vc.scrollToCtx with
  | none => (vc, [])
  | some ctx =>
      ({ vc with scrollToCtx := some { ctx with
            status := ScrollToStatus.scrolling,
            iterations := ctx.iterations + 1,
            pendingHeightUpdate := false } },
       [Event.onScroll ctx.cb targetTop])

/-- Source `_checkScrollToConvergence`. -/
def checkConv (vc : VirtualCore) : VirtualCore × List Event :=
  match vc.scrollToCtx with
  | none => (vc, [])
  | some ctx =>
      if ctx.status = ScrollToStatus.waiting then
        let currentTop := (pget vc.positions ctx.targetIndex).top
        if |currentTop - ctx.lastTop| ≤ ctx.threshold then
          ({ vc with scrollToCtx := none },
           [Event.onComplete ctx.cb currentTop ctx.iterations])
        else if ctx.maxIterations ≤ ctx.iterations then
          abortScrollToCore vc
            ("max iterations (" ++ toString ctx.maxIterations ++ ") reached")
        else
          doScroll { vc with scrollToCtx := some { ctx with lastTop := currentTop } }
            currentTop
      else (vc, [])

/-- Source `notifyScrollComplete`. -/
def notifyScrollComplete (vc : VirtualCore) : VirtualCore × List Event :=
  match vc.scrollToCtx with
  | none => (vc, [])
  | some ctx =>
      if ctx.status = ScrollToStatus.scrolling then
        checkConv { vc with scrollToCtx := some { ctx with
          pendingHeightUpdate := false, status := ScrollToStatus.waiting } }
      else (vc, [])

/-- The boundary clamp at the top of `scrollToIndex`:
`if (index < 0) index = 0; if (index >= total) index = max(0, total - 1)`. -/
def clampIdx (vc : VirtualCore) (index : Int) : Nat :=
  if index < 0 then 0
  else if (vc.total : Int) ≤ index then vc.total - 1
  else index.toNat

/-- Source `scrollToIndex` (clamp, empty-list fast path, abort any live
session, build the context, first `_doScroll`). -/
def scrollToIndex (vc : VirtualCore) (index : Int) (cb : Nat)
    (options : ScrollToOptions) : VirtualCore × List Event :=
  let idx : Nat := clampIdx vc index
  if vc.total = 0 then (vc, [Event.onComplete cb 0 0])
  else
    let r1 := if vc.scrollToCtx.isSome then abortScrollToCore vc "new scroll requested"
              else (vc, [])
    let threshold := options.threshold.getD vc.defaultHeight
    let maxIterations := options.maxIterations.getD 10
    let targetTop := (pget r1.1.positions idx).top
    let vc2 := { r1.1 with scrollToCtx := some {
        targetIndex := idx, lastTop := targetTop, iterations := 0,
        maxIterations := maxIterations, threshold := threshold, cb := cb,
        status := ScrollToStatus.idle, pendingHeightUpdate := false } }
    let r2 := doScroll vc2 targetTop
    (r2.1, r1.2 ++ r2.2)

/-- Source `abortScrollTo` (the public manual abort). -/
def abortScrollTo (vc : VirtualCore) : VirtualCore × List Event :=
  abortScrollToCore vc "manually aborted"

/-- One iteration of the `_recalculatePositions` loop body at index `i`:
`top := (i == 0 ? 0 : positions[i-1].bottom); bottom := top + height`. -/
def recalcStep (ps : List ItemPosition) (i : Nat) : List ItemPosition :=
  let prevBottom : Int := if i = 0 then 0 else (pget ps (i - 1)).bottom
  let p := pget ps i
  ps.set i { p with top := prevBottom, bottom := prevBottom + p.height }

/-- The `for (let i = fromIndex; i < total; i++)` loop of
`_recalculatePositions`, with the remaining trip count made explicit so
that the recursion is structural. -/
def recalcGo : Nat → List ItemPosition → Nat → List ItemPosition
  | 0, ps, _ => ps
  | fuel + 1, ps, i => recalcGo fuel (recalcStep ps i) (i + 1)

/-- Source `_recalculatePositions(fromIndex)` (the loop runs
`total - fromIndex` times, starting at `fromIndex`). -/
def recalculatePositions (ps : List ItemPosition) (fromIndex total : Nat) :
    List ItemPosition :=
  recalcGo (total - fromIndex) ps fromIndex

/-- Accumulator of the `validUpdates.forEach` loop in `updateHeights`. -/
structure UpdAcc where
  ps : List ItemPosition
  corr : Int
  changed : Bool
  firstIdx : Nat
deriving DecidableEq

/-- One step of the `validUpdates.forEach` body in `updateHeights`. -/
def applyUpd (st : Int) (acc : UpdAcc) (u : HeightUpdate) : UpdAcc :=
  let item := pget acc.ps u.index
  let oldHeight := item.height
  let diff := u.height - oldHeight
  if diff ≠ 0 then
    { ps := acc.ps.set u.index { item with height := u.height },
      corr := if item.top + oldHeight ≤ st then acc.corr + diff else acc.corr,
      changed := true,
      firstIdx := min acc.firstIdx u.index }
  else acc

/-- Source `updateHeights(updates, currentScrollTop)`.  Returns the new
state, the emitted events and the `scrollCorrection` of the source's
`UpdateCorrection` result. -/
def updateHeights (vc : VirtualCore) (updates : List HeightUpdate) (st : Int) :
    VirtualCore × List Event × Int :=
  let valid := updates.filter fun u => u.index < vc.total
  if valid.isEmpty then (vc, [], 0)
  else
    let sorted := List.insertionSort (fun a b => a.index ≤ b.index) valid
    let acc := sorted.foldl (applyUpd st) ⟨vc.positions, 0, false, vc.total⟩
    if acc.changed then
      let vc1 := { vc with positions := recalculatePositions acc.ps acc.firstIdx vc.total }
      let ev1 := Event.heightChange (getTotalHeight vc1)
      match vc1.scrollToCtx with
      | some ctx =>
          if ctx.status = ScrollToStatus.scrolling then
            ({ vc1 with scrollToCtx := some { ctx with pendingHeightUpdate := true } },
             [ev1], acc.corr)
          else if ctx.status = ScrollToStatus.waiting then
            let r := checkConv vc1
            (r.1, ev1 :: r.2, acc.corr)
          else (vc1, [ev1], acc.corr)
      | none => (vc1, [ev1], acc.corr)
    else (vc, [], acc.corr)

/-- Source `setTotal(newTotal)` (negative clamp, no-op fast path,
invalid-target abort, grow by appending default-height rows anchored at
the old final bottom / truncate, then `_notifyHeightChange`). -/
def setTotal (vc : VirtualCore) (n : Int) : VirtualCore × List Event :=
  let newTotal : Nat := n.toNat
  if newTotal = vc.total then (vc, [])
  else
    let r1 :=
      match vc.scrollToCtx with
      | some ctx =>
          if newTotal ≤ ctx.targetIndex then
            abortScrollToCore vc "target index out of range after setTotal"
          else (vc, [])
      | none => (vc, [])
    let positions' :=
      if vc.total < newTotal then
        let lastBottom : Int :=
          if 0 < vc.total ∧ r1.1.positions.length ≠ 0 then
            (pget r1.1.positions (vc.total - 1)).bottom
          else 0
        r1.1.positions ++ (List.range (newTotal - vc.total)).map fun j =>
          { index := vc.total + j, height := vc.defaultHeight,
            top := lastBottom + (j : Int) * vc.defaultHeight,
            bottom := lastBottom + ((j : Int) + 1) * vc.defaultHeight }
      else r1.1.positions.take newTotal
    let vc2 := { r1.1 with total := newTotal, positions := positions' }
    (vc2, r1.2 ++ [Event.heightChange (getTotalHeight vc2)])

/-- Source `reset(newTotal?)`. -/
def reset (vc : VirtualCore) (newTotal : Option Int) : VirtualCore × List Event :=
  let r1 := if vc.scrollToCtx.isSome then abortScrollToCore vc "reset called"
            else (vc, [])
  let vc2 :=
    match newTotal with
    | some m => { r1.1 with total := m.toNat }
    | none => r1.1
  let r2 := initPositions vc2
  (r2.1, r1.2 ++ r2.2)

/-- The `while (low <= high)` loop of `_findStartIndex`, with an explicit
trip-count bound (`high + 1 - low` shrinks every iteration, so that much
fuel is always enough). -/
def findGo : Nat → List ItemPosition → Int → Nat → Nat → Nat
  | 0, _, _, _, _ => 0
  | fuel + 1, ps, scrollTop, low, high =>
      if low ≤ high then
        let mid := (low + high) / 2
        let midBottom := (pget ps mid).bottom
        if scrollTop < midBottom then
          if mid = 0 then mid
          else if (pget ps (mid - 1)).bottom ≤ scrollTop then mid
          else findGo fuel ps scrollTop low (mid - 1)
        else findGo fuel ps scrollTop (mid + 1) high
      else 0

/-- Source `_findStartIndex(scrollTop)`. -/
def findStartIndex (vc : VirtualCore) (scrollTop : Int) : Nat :=
  if vc.positions.length = 0 then 0
  else
    let lastIndex := vc.positions.length - 1
    if scrollTop ≤ 0 then 0
    else if (pget vc.positions lastIndex).bottom ≤ scrollTop then vc.total
    else findGo (lastIndex + 1) vc.positions scrollTop 0 lastIndex

/-- Source `getRenderRange(scrollTop, viewHeight)`. -/
def getRenderRange (vc : VirtualCore) (scrollTop viewHeight : Int) : RenderRange :=
  if vc.total = 0 then
    { startIndex := 0, endIndex := -1, offset := 0, anchorIndex := 0 }
  else
    let anchorIndex := min (findStartIndex vc scrollTop) (vc.total - 1)
    let startIndex := anchorIndex - vc.buffer
    let endAnchor := findStartIndex vc (scrollTop + viewHeight)
    let endIndex : Int := ((min (vc.total - 1) (endAnchor + vc.buffer) : Nat) : Int)
    { startIndex := startIndex, endIndex := endIndex,
      offset := (pget vc.positions startIndex).top, anchorIndex := anchorIndex }

end VirtualCore

namespace VirtualCore

/-! ### Small access lemmas for `pget`, `List.take`, `List.drop`, `List.set` -/

theorem pget_cons_zero (a : ItemPosition) (l : List ItemPosition) :
    pget (a :: l) 0 = a := rfl

theorem pget_cons_succ (a : ItemPosition) (l : List ItemPosition) (n : Nat) :
    pget (a :: l) (n + 1) = pget l n := rfl

theorem pget_append_left (xs ys : List ItemPosition) (i : Nat) (h : i < xs.length) :
    pget (xs ++ ys) i = pget xs i := by
  induction xs generalizing i with
  | nil => simp at h
  | cons a l ih =>
    cases i with
    | zero => rfl
    | succ j =>
      simp only [List.cons_append, pget_cons_succ]
      exact ih j (by simpa using h)

theorem pget_append_right (xs ys : List ItemPosition) (i : Nat) (h : xs.length ≤ i) :
    pget (xs ++ ys) i = pget ys (i - xs.length) := by
  induction xs generalizing i with
  | nil => simp
  | cons a l ih =>
    cases i with
    | zero => simp at h
    | succ j =>
      simp only [List.cons_append, pget_cons_succ, List.length_cons]
      rw [ih j (by simpa using h)]
      congr 1
      omega

theorem pget_take (xs : List ItemPosition) (k i : Nat) (h : i < k) :
    pget (xs.take k) i = pget xs i := by
  induction xs generalizing k i with
  | nil => simp
  | cons a l ih =>
    cases k with
    | zero => omega
    | succ m =>
      cases i with
      | zero => rfl
      | succ j =>
        simp only [List.take_succ_cons, pget_cons_succ]
        exact ih m j (by omega)

theorem pget_set_self (xs : List ItemPosition) (i : Nat) (a : ItemPosition)
    (h : i < xs.length) : pget (xs.set i a) i = a := by
  induction xs generalizing i with
  | nil => simp at h
  | cons b l ih =>
    cases i with
    | zero => rfl
    | succ j => exact ih j (by simpa using h)

theorem pget_set_ne (xs : List ItemPosition) (i j : Nat) (a : ItemPosition)
    (h : i ≠ j) : pget (xs.set i a) j = pget xs j := by
  induction xs generalizing i j with
  | nil => simp
  | cons b l ih =>
    cases i with
    | zero =>
      cases j with
      | zero => omega
      | succ m => rfl
    | succ n =>
      cases j with
      | zero => rfl
      | succ m =>
        simp only [List.set_cons_succ, pget_cons_succ]
        exact ih n m (by omega)

theorem set_take_succ (xs : List ItemPosition) (i : Nat) (a : ItemPosition)
    (h : i < xs.length) : (xs.set i a).take (i + 1) = xs.take i ++ [a] := by
  induction xs generalizing i with
  | nil => simp at h
  | cons b l ih =>
    cases i with
    | zero => rfl
    | succ j =>
      simp only [List.set_cons_succ, List.take_succ_cons, List.cons_append]
      rw [ih j (by simpa using h)]

theorem drop_set_succ (xs : List ItemPosition) (i : Nat) (a : ItemPosition) :
    (xs.set i a).drop (i + 1) = xs.drop (i + 1) := by
  induction xs generalizing i with
  | nil => simp
  | cons b l ih =>
    cases i with
    | zero => rfl
    | succ j =>
      simp only [List.set_cons_succ, List.drop_succ_cons]
      exact ih j

theorem drop_eq_pget_cons (xs : List ItemPosition) (i : Nat) (h : i < xs.length) :
    xs.drop i = pget xs i :: xs.drop (i + 1) := by
  induction xs generalizing i with
  | nil => simp at h
  | cons b l ih =>
    cases i with
    | zero => rfl
    | succ j =>
      simp only [List.drop_succ_cons, pget_cons_succ]
      exact ih j (by simpa using h)

theorem take_eq_of_pget (xs ys : List ItemPosition) (k : Nat)
    (hlen : xs.length = ys.length) (h : ∀ j, j < k → pget xs j = pget ys j) :
    xs.take k = ys.take k := by
  induction xs generalizing ys k with
  | nil =>
    cases ys with
    | nil => rfl
    | cons c m => simp at hlen
  | cons a l ih =>
    cases ys with
    | nil => simp at hlen
    | cons c m =>
      cases k with
      | zero => rfl
      | succ j =>
        simp only [List.take_succ_cons]
        have h0 := h 0 (by omega)
        simp only [pget_cons_zero] at h0
        rw [h0, ih m j (by simpa using hlen)
          (fun j' hj' => h (j' + 1) (by omega))]

theorem pget_range'_map (f : Nat → ItemPosition) :
    ∀ (m k i : Nat), i < m → pget ((List.range' k m).map f) i = f (k + i) := by
  intro m
  induction m with
  | zero => omega
  | succ n ih =>
    intro k i hi
    show pget (f k :: (List.range' (k + 1) n).map f) i = f (k + i)
    cases i with
    | zero => rfl
    | succ j =>
      rw [pget_cons_succ, ih (k + 1) j (by omega)]
      congr 1
      omega

theorem pget_range_map (f : Nat → ItemPosition) (m i : Nat) (h : i < m) :
    pget ((List.range m).map f) i = f i := by
  rw [List.range_eq_range', pget_range'_map f m 0 i h, Nat.zero_add]

/-! ### The chain invariant of the position table -/

/-- The list of rows forms a gap-free chain starting at offset `s`:
each row's `top` is the running offset and `bottom = top + height`. -/
def ChainedFrom : Int → List ItemPosition → Prop
  | _, [] => True
  | s, p :: rest => p.top = s ∧ p.bottom = p.top + p.height ∧ ChainedFrom p.bottom rest

/-- The bottom of the last row of `ps`, or `s` when `ps` is empty. -/
def endBottom (s : Int) : List ItemPosition → Int
  | [] => s
  | p :: rest => endBottom p.bottom rest

theorem chained_take (ps : List ItemPosition) (s : Int) (k : Nat)
    (h : ChainedFrom s ps) : ChainedFrom s (ps.take k) := by
  induction ps generalizing s k with
  | nil => simp [ChainedFrom]
  | cons p rest ih =>
    cases k with
    | zero => exact trivial
    | succ j =>
      obtain ⟨h1, h2, h3⟩ := h
      exact ⟨h1, h2, ih p.bottom j h3⟩

theorem chained_append (xs ys : List ItemPosition) (s : Int)
    (hx : ChainedFrom s xs) (hy : ChainedFrom (endBottom s xs) ys) :
    ChainedFrom s (xs ++ ys) := by
  induction xs generalizing s with
  | nil => exact hy
  | cons p rest ih =>
    obtain ⟨h1, h2, h3⟩ := hx
    exact ⟨h1, h2, ih p.bottom h3 hy⟩

theorem endBottom_eq_pget (xs : List ItemPosition) (s : Int) (h : xs ≠ []) :
    endBottom s xs = (pget xs (xs.length - 1)).bottom := by
  induction xs generalizing s with
  | nil => exact absurd rfl h
  | cons p rest ih =>
    cases rest with
    | nil => rfl
    | cons q m =>
      show endBottom p.bottom (q :: m) = _
      rw [ih p.bottom (by simp)]
      simp only [List.length_cons]
      rw [show m.length + 1 + 1 - 1 = (m.length + 1 - 1) + 1 by omega, pget_cons_succ]

/-- Derived indexed form of the chain invariant (the shape stated in the
specification). -/
theorem chained_pget (ps : List ItemPosition) (s : Int) (h : ChainedFrom s ps) :
    (∀ i, i < ps.length →
        (pget ps i).bottom = (pget ps i).top + (pget ps i).height)
    ∧ (∀ i, 0 < i → i < ps.length →
        (pget ps i).top = (pget ps (i - 1)).bottom)
    ∧ (0 < ps.length → (pget ps 0).top = s) := by
  induction ps generalizing s with
  | nil => exact ⟨fun i hi => by simp at hi, fun i h0 hi => by simp at hi,
      fun hl => by simp at hl⟩
  | cons p rest ih =>
    obtain ⟨h1, h2, h3⟩ := h
    obtain ⟨ih1, ih2, ih3⟩ := ih p.bottom h3
    refine ⟨?_, ?_, ?_⟩
    · intro i hi
      cases i with
      | zero => exact h2
      | succ j =>
        rw [pget_cons_succ]
        exact ih1 j (by simpa using hi)
    · intro i h0 hi
      cases i with
      | zero => omega
      | succ j =>
        rw [pget_cons_succ, Nat.add_sub_cancel]
        cases j with
        | zero =>
          rw [pget_cons_zero]
          exact ih3 (by simpa using hi)
        | succ m =>
          rw [pget_cons_succ]
          have := ih2 (m + 1) (by omega) (by simpa using hi)
          rw [Nat.add_sub_cancel] at this
          exact this
    · intro _
      exact h1

/-- Generic chain lemma for arithmetically generated row blocks
(`_initPositions` and the growth loop of `setTotal`). -/
theorem chained_range'_map (f : Nat → ItemPosition) (lb dh : Int)
    (hf : ∀ i, (f i).top = lb + (i : Int) * dh ∧ (f i).height = dh ∧
      (f i).bottom = lb + ((i : Int) + 1) * dh) :
    ∀ (m k : Nat), ChainedFrom (lb + (k : Int) * dh) ((List.range' k m).map f) := by
  intro m
  induction m with
  | zero => intro k; exact trivial
  | succ n ih =>
    intro k
    show ChainedFrom _ (f k :: (List.range' (k + 1) n).map f)
    obtain ⟨ht, hh, hb⟩ := hf k
    refine ⟨ht, by rw [hb, ht, hh]; ring, ?_⟩
    rw [hb]
    have := ih (k + 1)
    have hcast : lb + ((k + 1 : Nat) : Int) * dh = lb + ((k : Int) + 1) * dh := by
      push_cast; ring
    rw [hcast] at this
    exact this

theorem chained_range_map (f : Nat → ItemPosition) (lb dh : Int)
    (hf : ∀ i, (f i).top = lb + (i : Int) * dh ∧ (f i).height = dh ∧
      (f i).bottom = lb + ((i : Int) + 1) * dh) (m : Nat) :
    ChainedFrom lb ((List.range m).map f) := by
  have := chained_range'_map f lb dh hf m 0
  rw [List.range_eq_range' m]
  simpa using this

/-! ### Characterisation of `_recalculatePositions` -/

/-- The starting offset the recalculation loop uses at index `i`. -/
def recStart (ps : List ItemPosition) (i : Nat) : Int :=
  if i = 0 then 0 else (pget ps (i - 1)).bottom

/-- Rebuild a suffix as a canonical chain starting at offset `s`
(what the recalculation loop produces). -/
def chainRows (s : Int) : List ItemPosition → List ItemPosition
  | [] => []
  | p :: rest => { p with top := s, bottom := s + p.height } :: chainRows (s + p.height) rest

theorem chainRows_length (s : Int) (ps : List ItemPosition) :
    (chainRows s ps).length = ps.length := by
  induction ps generalizing s with
  | nil => rfl
  | cons p rest ih => simp [chainRows, ih]

theorem chained_chainRows (s : Int) (ps : List ItemPosition) :
    ChainedFrom s (chainRows s ps) := by
  induction ps generalizing s with
  | nil => exact trivial
  | cons p rest ih => exact ⟨rfl, rfl, ih (s + p.height)⟩

theorem recalcGo_eq : ∀ (fuel : Nat) (ps : List ItemPosition) (i : Nat),
    i + fuel = ps.length →
    recalcGo fuel ps i = ps.take i ++ chainRows (recStart ps i) (ps.drop i) := by
  intro fuel
  induction fuel with
  | zero =>
    intro ps i h
    have h1 : ps.length ≤ i := by omega
    rw [recalcGo, List.take_of_length_le h1, List.drop_eq_nil_of_le h1]
    simp [chainRows]
  | succ n ih =>
    intro ps i h
    have hi : i < ps.length := by omega
    rw [recalcGo]
    have hstep : recalcStep ps i = ps.set i { pget ps i with top := recStart ps i, bottom := recStart ps i + (pget ps i).height } := rfl
    rw [hstep]
    set q : ItemPosition := { pget ps i with top := recStart ps i, bottom := recStart ps i + (pget ps i).height } with hq
    have hlen' : (i + 1) + n = (ps.set i q).length := by
      rw [List.length_set]; omega
    rw [ih (ps.set i q) (i + 1) hlen']
    rw [set_take_succ ps i q hi, drop_set_succ ps i q]
    have hrs : recStart (ps.set i q) (i + 1) = recStart ps i + (pget ps i).height := by
      show (if i + 1 = 0 then (0 : Int) else (pget (ps.set i q) (i + 1 - 1)).bottom) = _
      simp only [Nat.add_sub_cancel, if_neg (Nat.succ_ne_zero i)]
      rw [pget_set_self ps i q hi]
    rw [hrs, drop_eq_pget_cons ps i hi]
    show (ps.take i ++ [q]) ++ chainRows (recStart ps i + (pget ps i).height)
        (ps.drop (i + 1)) = ps.take i ++ chainRows (recStart ps i)
        (pget ps i :: ps.drop (i + 1))
    rw [List.append_assoc, List.singleton_append]
    rfl

theorem recalculatePositions_eq (ps : List ItemPosition) (i : Nat)
    (h : i ≤ ps.length) :
    recalculatePositions ps i ps.length =
      ps.take i ++ chainRows (recStart ps i) (ps.drop i) := by
  rw [recalculatePositions, recalcGo_eq (ps.length - i) ps i (by omega)]

end VirtualCore

namespace VirtualCore

/-! ### The scroll-session operations never touch the position table -/

theorem abortScrollToCore_positions (vc : VirtualCore) (r : String) :
    (abortScrollToCore vc r).1.positions = vc.positions ∧
    (abortScrollToCore vc r).1.total = vc.total := by
  unfold abortScrollToCore
  cases vc.scrollToCtx <;> exact ⟨rfl, rfl⟩

theorem doScroll_positions (vc : VirtualCore) (t : Int) :
    (doScroll vc t).1.positions = vc.positions ∧
    (doScroll vc t).1.total = vc.total := by
  unfold doScroll
  cases vc.scrollToCtx <;> exact ⟨rfl, rfl⟩

theorem checkConv_positions (vc : VirtualCore) :
    (checkConv vc).1.positions = vc.positions ∧
    (checkConv vc).1.total = vc.total := by
  unfold checkConv
  cases hc : vc.scrollToCtx with
  | none => exact ⟨rfl, rfl⟩
  | some ctx =>
    dsimp only
    split
    · split
      · exact ⟨rfl, rfl⟩
      · split
        · exact abortScrollToCore_positions vc _
        · exact doScroll_positions _ _
    · exact ⟨rfl, rfl⟩

/-! ### Lemmas about the `updateHeights` fold -/

theorem applyUpd_length (st : Int) (acc : UpdAcc) (u : HeightUpdate) :
    (applyUpd st acc u).ps.length = acc.ps.length := by
  unfold applyUpd
  dsimp only
  split
  · exact List.length_set acc.ps u.index _
  · rfl

theorem foldl_applyUpd_length (st : Int) : ∀ (l : List HeightUpdate) (acc : UpdAcc),
    (l.foldl (applyUpd st) acc).ps.length = acc.ps.length
  | [], _ => rfl
  | u :: rest, acc => by
    rw [List.foldl_cons, foldl_applyUpd_length st rest (applyUpd st acc u),
      applyUpd_length]

theorem applyUpd_firstIdx_le (st : Int) (acc : UpdAcc) (u : HeightUpdate) :
    (applyUpd st acc u).firstIdx ≤ acc.firstIdx := by
  unfold applyUpd
  dsimp only
  split
  · exact Nat.min_le_left _ _
  · exact Nat.le_refl _

theorem foldl_applyUpd_firstIdx_le (st : Int) :
    ∀ (l : List HeightUpdate) (acc : UpdAcc),
    (l.foldl (applyUpd st) acc).firstIdx ≤ acc.firstIdx
  | [], _ => Nat.le_refl _
  | u :: rest, acc => by
    rw [List.foldl_cons]
    exact Nat.le_trans (foldl_applyUpd_firstIdx_le st rest (applyUpd st acc u))
      (applyUpd_firstIdx_le st acc u)

theorem applyUpd_untouched (st : Int) (acc : UpdAcc) (u : HeightUpdate) (j : Nat)
    (hj : j < (applyUpd st acc u).firstIdx) :
    pget (applyUpd st acc u).ps j = pget acc.ps j := by
  unfold applyUpd at hj ⊢
  dsimp only at hj ⊢
  split at hj
  · next hdiff =>
    simp only [if_pos hdiff] at *
    have hne : u.index ≠ j := by
      have := Nat.min_le_right acc.firstIdx u.index
      omega
    exact pget_set_ne acc.ps u.index j _ hne
  · next hdiff =>
    simp only [if_neg hdiff]

theorem foldl_applyUpd_untouched (st : Int) :
    ∀ (l : List HeightUpdate) (acc : UpdAcc) (j : Nat),
    j < (l.foldl (applyUpd st) acc).firstIdx →
    pget (l.foldl (applyUpd st) acc).ps j = pget acc.ps j
  | [], _, _, _ => rfl
  | u :: rest, acc, j, hj => by
    rw [List.foldl_cons] at hj ⊢
    rw [foldl_applyUpd_untouched st rest (applyUpd st acc u) j hj]
    exact applyUpd_untouched st acc u j
      (Nat.lt_of_lt_of_le hj (foldl_applyUpd_firstIdx_le st rest (applyUpd st acc u)))

theorem applyUpd_changed_mono (st : Int) (acc : UpdAcc) (u : HeightUpdate)
    (h : acc.changed = true) : (applyUpd st acc u).changed = true := by
  unfold applyUpd
  dsimp only
  split
  · rfl
  · exact h

theorem foldl_applyUpd_changed_mono (st : Int) :
    ∀ (l : List HeightUpdate) (acc : UpdAcc), acc.changed = true →
    (l.foldl (applyUpd st) acc).changed = true
  | [], _, h => h
  | u :: rest, acc, h => by
    rw [List.foldl_cons]
    exact foldl_applyUpd_changed_mono st rest (applyUpd st acc u)
      (applyUpd_changed_mono st acc u h)

theorem applyUpd_of_not_changed (st : Int) (acc : UpdAcc) (u : HeightUpdate)
    (h : (applyUpd st acc u).changed = false) : applyUpd st acc u = acc := by
  unfold applyUpd at h ⊢
  dsimp only at h ⊢
  split at h
  · simp at h
  · next hdiff => simp only [if_neg hdiff]

theorem foldl_applyUpd_of_not_changed (st : Int) :
    ∀ (l : List HeightUpdate) (acc : UpdAcc),
    (l.foldl (applyUpd st) acc).changed = false → l.foldl (applyUpd st) acc = acc
  | [], _, _ => rfl
  | u :: rest, acc, h => by
    rw [List.foldl_cons] at h ⊢
    have hu : (applyUpd st acc u).changed = false := by
      by_contra hc
      have : (applyUpd st acc u).changed = true := by
        cases hb : (applyUpd st acc u).changed
        · exact absurd hb hc
        · rfl
      rw [foldl_applyUpd_changed_mono st rest (applyUpd st acc u) this] at h
      exact absurd h (by simp)
    rw [applyUpd_of_not_changed st acc u hu] at h ⊢
    exact foldl_applyUpd_of_not_changed st rest acc h

/-! ### The table invariant -/

/-- The internal representation invariant of the position table. -/
def TableOk (vc : VirtualCore) : Prop :=
  vc.positions.length = vc.total ∧ ChainedFrom 0 vc.positions

theorem tableOk_congr (a b : VirtualCore) (hp : b.positions = a.positions)
    (ht : b.total = a.total) (h : TableOk a) : TableOk b := by
  rw [TableOk, hp, ht]
  exact h

theorem tableOk_initPositions (vc : VirtualCore) : TableOk (initPositions vc).1 := by
  constructor
  · show (initRows vc.total vc.defaultHeight).length = vc.total
    simp [initRows]
  · show ChainedFrom 0 (initRows vc.total vc.defaultHeight)
    exact chained_range_map _ 0 vc.defaultHeight
      (fun i => ⟨by dsimp only [initRows]; ring, rfl, by dsimp only [initRows]; ring⟩)
      vc.total

end VirtualCore

namespace VirtualCore

/-! ### Unfolding helpers for the session operations -/

theorem abortScrollToCore_some (vc : VirtualCore) (ctx : ScrollToContext) (r : String)
    (h : vc.scrollToCtx = some ctx) :
    abortScrollToCore vc r =
      ({ vc with scrollToCtx := none }, [Event.onAbort ctx.cb r]) := by
  unfold abortScrollToCore
  rw [h]

theorem abortScrollToCore_none (vc : VirtualCore) (r : String)
    (h : vc.scrollToCtx = none) : abortScrollToCore vc r = (vc, []) := by
  unfold abortScrollToCore
  rw [h]

theorem doScroll_some (vc : VirtualCore) (ctx : ScrollToContext) (t : Int)
    (h : vc.scrollToCtx = some ctx) :
    doScroll vc t =
      ({ vc with scrollToCtx := some { ctx with status := ScrollToStatus.scrolling, iterations := ctx.iterations + 1, pendingHeightUpdate := false } },
       [Event.onScroll ctx.cb t]) := by
  unfold doScroll
  rw [h]

/-! ### `updateHeights` preserves the table invariant -/

theorem tableOk_recalc (ps : List ItemPosition) (total : Nat) (st : Int)
    (l : List HeightUpdate) (hlen : ps.length = total) (hch : ChainedFrom 0 ps) :
    (recalculatePositions (l.foldl (applyUpd st) ⟨ps, 0, false, total⟩).ps
        (l.foldl (applyUpd st) ⟨ps, 0, false, total⟩).firstIdx total).length = total
    ∧ ChainedFrom 0 (recalculatePositions (l.foldl (applyUpd st) ⟨ps, 0, false, total⟩).ps
        (l.foldl (applyUpd st) ⟨ps, 0, false, total⟩).firstIdx total) := by
  set acc := l.foldl (applyUpd st) ⟨ps, 0, false, total⟩ with hacc
  have haccl : acc.ps.length = ps.length := by
    rw [hacc]; exact foldl_applyUpd_length st l _
  have hfil : acc.firstIdx ≤ total := by
    rw [hacc]; exact foldl_applyUpd_firstIdx_le st l _
  have hpre : ∀ j, j < acc.firstIdx → pget acc.ps j = pget ps j := by
    rw [hacc]; exact fun j hj => foldl_applyUpd_untouched st l _ j hj
  have htot : total = acc.ps.length := by omega
  rw [htot, recalculatePositions_eq acc.ps acc.firstIdx (by omega)]
  have htake : acc.ps.take acc.firstIdx = ps.take acc.firstIdx :=
    take_eq_of_pget acc.ps ps acc.firstIdx haccl hpre
  constructor
  · rw [List.length_append, List.length_take, chainRows_length, List.length_drop]
    omega
  · rw [htake]
    refine chained_append _ _ 0 (chained_take ps 0 acc.firstIdx hch) ?_
    have hstart : endBottom 0 (ps.take acc.firstIdx) = recStart acc.ps acc.firstIdx := by
      cases hfi : acc.firstIdx with
      | zero => simp [recStart, endBottom]
      | succ k =>
        have hk : k + 1 ≤ ps.length := by omega
        have hne : ps.take (k + 1) ≠ [] := by
          have hl : (ps.take (k + 1)).length = k + 1 := by
            rw [List.length_take]; omega
          intro hcon
          rw [hcon] at hl
          simp at hl
        rw [endBottom_eq_pget _ 0 hne]
        have hlt : (ps.take (k + 1)).length - 1 = k := by
          rw [List.length_take]; omega
        rw [hlt, pget_take ps (k + 1) k (by omega)]
        show (pget ps k).bottom = recStart acc.ps (k + 1)
        rw [recStart, if_neg (Nat.succ_ne_zero k), Nat.add_sub_cancel,
          hpre k (by omega)]
    rw [hstart]
    exact chained_chainRows _ _

theorem tableOk_updateHeights (vc : VirtualCore) (us : List HeightUpdate) (st : Int)
    (h : TableOk vc) : TableOk (updateHeights vc us st).1 := by
  obtain ⟨hlen, hch⟩ := h
  have hrec := tableOk_recalc vc.positions vc.total st
    (List.insertionSort (fun a b => a.index ≤ b.index)
      (us.filter fun u => u.index < vc.total)) hlen hch
  unfold updateHeights
  dsimp only
  split
  · exact ⟨hlen, hch⟩
  · split
    · split
      · split
        · exact ⟨hrec.1, hrec.2⟩
        · split
          · exact tableOk_congr _ _ (checkConv_positions _).1 (checkConv_positions _).2
              ⟨hrec.1, hrec.2⟩
          · exact ⟨hrec.1, hrec.2⟩
      · exact ⟨hrec.1, hrec.2⟩
    · exact ⟨hlen, hch⟩

end VirtualCore

namespace VirtualCore

/-! ### `setTotal`, `reset` and construction preserve the table invariant -/

theorem tableOk_setTotal_core (ps : List ItemPosition) (total newTotal : Nat)
    (dh : Int) (hlen : ps.length = total) (hch : ChainedFrom 0 ps) :
    (if total < newTotal then
        let lastBottom : Int :=
          if 0 < total ∧ ps.length ≠ 0 then (pget ps (total - 1)).bottom else 0
        ps ++ (List.range (newTotal - total)).map fun j =>
          { index := total + j, height := dh,
            top := lastBottom + (j : Int) * dh,
            bottom := lastBottom + ((j : Int) + 1) * dh }
      else ps.take newTotal).length = newTotal
    ∧ ChainedFrom 0
      (if total < newTotal then
        let lastBottom : Int :=
          if 0 < total ∧ ps.length ≠ 0 then (pget ps (total - 1)).bottom else 0
        ps ++ (List.range (newTotal - total)).map fun j =>
          { index := total + j, height := dh,
            top := lastBottom + (j : Int) * dh,
            bottom := lastBottom + ((j : Int) + 1) * dh }
      else ps.take newTotal) := by
  by_cases hg : total < newTotal
  · rw [if_pos hg]
    dsimp only
    by_cases h0 : 0 < total
    · have hcond : 0 < total ∧ ps.length ≠ 0 := ⟨h0, by omega⟩
      rw [if_pos hcond]
      constructor
      · rw [List.length_append, List.length_map, List.length_range]; omega
      · refine chained_append _ _ 0 hch ?_
        have hend : endBottom 0 ps = (pget ps (total - 1)).bottom := by
          rw [endBottom_eq_pget ps 0 (by
            intro hc
            rw [hc] at hlen
            simp at hlen
            omega), hlen]
        rw [hend]
        exact chained_range_map _ ((pget ps (total - 1)).bottom) dh
          (fun i => ⟨rfl, rfl, rfl⟩) (newTotal - total)
    · have hcond : ¬(0 < total ∧ ps.length ≠ 0) := fun hc => absurd hc.1 h0
      rw [if_neg hcond]
      have hpsnil : ps = [] := List.length_eq_zero.mp (by omega)
      constructor
      · rw [List.length_append, List.length_map, List.length_range]; omega
      · rw [hpsnil, List.nil_append]
        exact chained_range_map _ 0 dh (fun i => ⟨rfl, rfl, rfl⟩) (newTotal - total)
  · rw [if_neg hg]
    constructor
    · rw [List.length_take]; omega
    · exact chained_take ps 0 newTotal hch

theorem tableOk_setTotal (vc : VirtualCore) (n : Int) (h : TableOk vc) :
    TableOk (setTotal vc n).1 := by
  obtain ⟨hlen, hch⟩ := h
  have hcore := tableOk_setTotal_core vc.positions vc.total n.toNat vc.defaultHeight
    hlen hch
  unfold setTotal
  dsimp only
  split
  · exact ⟨hlen, hch⟩
  · cases hctx : vc.scrollToCtx with
    | none =>
      simp only [hctx]
      exact ⟨hcore.1, hcore.2⟩
    | some ctx =>
      simp only [hctx]
      split
      · rw [abortScrollToCore_some vc ctx _ hctx]
        exact ⟨hcore.1, hcore.2⟩
      · exact ⟨hcore.1, hcore.2⟩

theorem tableOk_reset (vc : VirtualCore) (n : Option Int) : TableOk (reset vc n).1 := by
  unfold reset
  dsimp only
  exact tableOk_initPositions _

theorem tableOk_create (total : Nat) (dh : Int) (buffer : Option Nat) :
    TableOk (create total dh buffer).1 :=
  tableOk_initPositions _

/-- States reachable by constructing a core and then applying any
sequence of `setTotal`, `updateHeights` and `reset` calls. -/
inductive Reachable : VirtualCore → Prop
  | init (total : Nat) (dh : Int) (buffer : Option Nat) :
      Reachable (create total dh buffer).1
  | stepUpdate (vc : VirtualCore) (us : List HeightUpdate) (st : Int) :
      Reachable vc → Reachable (updateHeights vc us st).1
  | stepSetTotal (vc : VirtualCore) (n : Int) :
      Reachable vc → Reachable (setTotal vc n).1
  | stepReset (vc : VirtualCore) (n : Option Int) :
      Reachable vc → Reachable (reset vc n).1

theorem tableOk_of_reachable (vc : VirtualCore) (h : Reachable vc) : TableOk vc := by
  induction h with
  | init total dh buffer => exact tableOk_create total dh buffer
  | stepUpdate vc us st _ ih => exact tableOk_updateHeights vc us st ih
  | stepSetTotal vc n _ ih => exact tableOk_setTotal vc n ih
  | stepReset vc n _ => exact tableOk_reset vc n

theorem getTotalHeight_eq (vc : VirtualCore) (hlen : vc.positions.length = vc.total) :
    getTotalHeight vc =
      (if vc.total = 0 then 0 else (pget vc.positions (vc.total - 1)).bottom) := by
  unfold getTotalHeight
  by_cases h0 : vc.total = 0
  · simp [h0]
  · rw [if_neg h0, if_neg (by omega), if_neg (by omega)]

/-- C1: position-table consistency.  After any sequence of construction,
`setTotal`, `updateHeights` and `reset` calls, the table has exactly
`total` rows; every row satisfies `bottom = top + height`; each row's
`top` is the previous row's `bottom`; row 0 starts at 0; and
`getTotalHeight()` returns `positions[total-1].bottom` (0 when
`total = 0`). -/
theorem c1_table_consistency (vc : VirtualCore) (h : Reachable vc) :
    vc.positions.length = vc.total
    ∧ (∀ i, i < vc.total →
        (pget vc.positions i).bottom = (pget vc.positions i).top + (pget vc.positions i).height)
    ∧ (∀ i, 0 < i → i < vc.total →
        (pget vc.positions i).top = (pget vc.positions (i - 1)).bottom)
    ∧ (0 < vc.total → (pget vc.positions 0).top = 0)
    ∧ getTotalHeight vc =
        (if vc.total = 0 then 0 else (pget vc.positions (vc.total - 1)).bottom) := by
  obtain ⟨hlen, hch⟩ := tableOk_of_reachable vc h
  obtain ⟨h1, h2, h3⟩ := chained_pget vc.positions 0 hch
  rw [hlen] at h1 h2 h3
  exact ⟨hlen, h1, h2, h3, getTotalHeight_eq vc hlen⟩

/-- A small concrete reachable state: create 3 rows of height 10, grow to
5, then measure row 1 at height 25. -/
def coreW1 : VirtualCore :=
  (updateHeights (setTotal (create 3 10 none).1 5).1 [⟨1, 25⟩] 0).1

theorem c1_table_consistency_witness :
    coreW1.positions.length = coreW1.total
    ∧ (∀ i, i < coreW1.total →
        (pget coreW1.positions i).bottom = (pget coreW1.positions i).top + (pget coreW1.positions i).height)
    ∧ (∀ i, 0 < i → i < coreW1.total →
        (pget coreW1.positions i).top = (pget coreW1.positions (i - 1)).bottom)
    ∧ (0 < coreW1.total → (pget coreW1.positions 0).top = 0)
    ∧ getTotalHeight coreW1 =
        (if coreW1.total = 0 then 0 else (pget coreW1.positions (coreW1.total - 1)).bottom) :=
  c1_table_consistency coreW1
    (Reachable.stepUpdate _ _ _ (Reachable.stepSetTotal _ _ (Reachable.init 3 10 none)))

end VirtualCore

namespace VirtualCore

/-! ### The no-op law of `updateHeights` (C7) -/

theorem applyUpd_id_of_same (st : Int) (acc : UpdAcc) (u : HeightUpdate)
    (h : u.height = (pget acc.ps u.index).height) : applyUpd st acc u = acc := by
  unfold applyUpd
  dsimp only
  rw [h, sub_self]
  simp

theorem foldl_applyUpd_id (st : Int) :
    ∀ (l : List HeightUpdate) (acc : UpdAcc),
    (∀ u ∈ l, u.height = (pget acc.ps u.index).height) →
    l.foldl (applyUpd st) acc = acc
  | [], _, _ => rfl
  | u :: rest, acc, h => by
    rw [List.foldl_cons, applyUpd_id_of_same st acc u (h u (List.mem_cons_self u rest))]
    exact foldl_applyUpd_id st rest acc fun v hv => h v (List.mem_cons_of_mem u hv)

/-- C7: `updateHeights` no-op condition.  If every in-range entry of the
batch carries a height equal to the row's currently stored height (in
particular for an empty batch, a batch of only out-of-range indices, or a
batch repeating stored heights), the call returns
`scrollCorrection = 0`, leaves the state (hence every position record)
unchanged, and emits no event — in particular no total-height-changed
notification. -/
theorem c7_noop_update (vc : VirtualCore) (updates : List HeightUpdate) (st : Int)
    (h : ∀ u ∈ updates, u.index < vc.total →
      u.height = (pget vc.positions u.index).height) :
    updateHeights vc updates st = (vc, [], 0) := by
  unfold updateHeights
  dsimp only
  split
  · rfl
  · have hmem : ∀ u ∈ List.insertionSort (fun a b => a.index ≤ b.index)
        (updates.filter fun u => u.index < vc.total),
        u.height = (pget vc.positions u.index).height := by
      intro u hu
      rw [List.mem_insertionSort] at hu
      have hf := List.mem_filter.mp hu
      exact h u hf.1 (by simpa using hf.2)
    rw [foldl_applyUpd_id st _ _ hmem]
    rfl

theorem c7_noop_update_witness :
    updateHeights (create 3 10 none).1 [⟨0, 10⟩, ⟨7, 99⟩] 5 =
      ((create 3 10 none).1, [], 0) :=
  c7_noop_update _ _ _ (by decide)

/-! ### The per-row correction law of `updateHeights` (C3) -/

theorem applyUpd_corr (st : Int) (acc : UpdAcc) (u : HeightUpdate) :
    (applyUpd st acc u).corr = acc.corr +
      (if (pget acc.ps u.index).top + (pget acc.ps u.index).height ≤ st
        then u.height - (pget acc.ps u.index).height else 0) := by
  unfold applyUpd
  dsimp only
  by_cases hd : u.height - (pget acc.ps u.index).height ≠ 0
  · rw [if_pos hd]
    dsimp only
    by_cases hc : (pget acc.ps u.index).top + (pget acc.ps u.index).height ≤ st
    · rw [if_pos hc, if_pos hc]
    · rw [if_neg hc, if_neg hc, add_zero]
  · rw [if_neg hd]
    push_neg at hd
    by_cases hc : (pget acc.ps u.index).top + (pget acc.ps u.index).height ≤ st
    · rw [if_pos hc, hd, add_zero]
    · rw [if_neg hc, add_zero]

theorem applyUpd_pget_ne (st : Int) (acc : UpdAcc) (u : HeightUpdate) (j : Nat)
    (h : u.index ≠ j) : pget (applyUpd st acc u).ps j = pget acc.ps j := by
  unfold applyUpd
  dsimp only
  split
  · exact pget_set_ne acc.ps u.index j _ h
  · rfl

theorem foldl_applyUpd_corr (st : Int) :
    ∀ (l : List HeightUpdate) (acc : UpdAcc),
    l.Pairwise (fun a b => a.index < b.index) →
    (l.foldl (applyUpd st) acc).corr = acc.corr +
      (l.map fun u =>
        if (pget acc.ps u.index).top + (pget acc.ps u.index).height ≤ st
        then u.height - (pget acc.ps u.index).height else 0).sum
  | [], _, _ => by simp
  | u :: rest, acc, hp => by
    rw [List.foldl_cons, List.map_cons, List.sum_cons]
    have hp1 : ∀ v ∈ rest, u.index < v.index :=
      fun v hv => (List.pairwise_cons.mp hp).1 v hv
    have hp2 := (List.pairwise_cons.mp hp).2
    rw [foldl_applyUpd_corr st rest (applyUpd st acc u) hp2, applyUpd_corr st acc u]
    have hmap : (rest.map fun v =>
        if (pget (applyUpd st acc u).ps v.index).top +
            (pget (applyUpd st acc u).ps v.index).height ≤ st
        then v.height - (pget (applyUpd st acc u).ps v.index).height else 0)
      = rest.map fun v =>
        if (pget acc.ps v.index).top + (pget acc.ps v.index).height ≤ st
        then v.height - (pget acc.ps v.index).height else 0 := by
      apply List.map_congr_left
      intro v hv
      rw [applyUpd_pget_ne st acc u v.index (Nat.ne_of_lt (hp1 v hv))]
    rw [hmap]
    ring

/-- C3: scroll-anchoring law of `updateHeights`.  For a batch of valid
updates on pairwise distinct (ascending) rows, the returned
`scrollCorrection` is the sum, over the batch, of the height delta of
each row whose old bottom (`top + height` before the call) lies at or
above `currentScrollTop`, while rows whose old bottom exceeds
`currentScrollTop` contribute 0 regardless of their delta.  In
particular a single fully-above row shrinking by `Δ` yields `-Δ`. -/
theorem c3_anchoring (vc : VirtualCore) (updates : List HeightUpdate) (st : Int)
    (hsorted : updates.Pairwise (fun a b => a.index < b.index))
    (hvalid : ∀ u ∈ updates, u.index < vc.total) :
    (updateHeights vc updates st).2.2 =
      (updates.map fun u =>
        if (pget vc.positions u.index).top + (pget vc.positions u.index).height ≤ st
        then u.height - (pget vc.positions u.index).height else 0).sum := by
  unfold updateHeights
  dsimp only
  have hfil : updates.filter (fun u => u.index < vc.total) = updates :=
    List.filter_eq_self.mpr fun u hu => by simpa using hvalid u hu
  rw [hfil]
  have hsortEq : List.insertionSort (fun a b => a.index ≤ b.index) updates = updates :=
    List.Sorted.insertionSort_eq (hsorted.imp fun h => Nat.le_of_lt h)
  rw [hsortEq]
  have hcorr : (updates.foldl (applyUpd st) ⟨vc.positions, 0, false, vc.total⟩).corr =
      (updates.map fun u =>
        if (pget vc.positions u.index).top + (pget vc.positions u.index).height ≤ st
        then u.height - (pget vc.positions u.index).height else 0).sum := by
    rw [foldl_applyUpd_corr st updates ⟨vc.positions, 0, false, vc.total⟩ hsorted,
      zero_add]
  split
  · next hemp =>
    have hnil : updates = [] := by simpa [List.isEmpty_iff] using hemp
    rw [hnil]
    rfl
  · split
    · split
      · split
        · exact hcorr
        · split
          · exact hcorr
          · exact hcorr
      · exact hcorr
    · exact hcorr

theorem c3_anchoring_witness :
    (updateHeights (create 3 10 none).1 [⟨0, 4⟩, ⟨2, 30⟩] 25).2.2 = -6 :=
  (c3_anchoring (create 3 10 none).1 [⟨0, 4⟩, ⟨2, 30⟩] 25 (by simp)
    (by decide)).trans (by decide)

end VirtualCore

namespace VirtualCore

/-! ### `setTotal` characterisation (C8, C9) -/

theorem setTotal_state (vc : VirtualCore) (n : Int) (hne : n.toNat ≠ vc.total) :
    (setTotal vc n).1.total = n.toNat
    ∧ (setTotal vc n).1.positions =
      (if vc.total < n.toNat then
        vc.positions ++ (List.range (n.toNat - vc.total)).map fun j =>
          { index := vc.total + j, height := vc.defaultHeight,
            top := (if 0 < vc.total ∧ vc.positions.length ≠ 0 then
                (pget vc.positions (vc.total - 1)).bottom else 0) +
              (j : Int) * vc.defaultHeight,
            bottom := (if 0 < vc.total ∧ vc.positions.length ≠ 0 then
                (pget vc.positions (vc.total - 1)).bottom else 0) +
              ((j : Int) + 1) * vc.defaultHeight }
      else vc.positions.take n.toNat) := by
  unfold setTotal
  dsimp only
  rw [if_neg hne]
  cases hctx : vc.scrollToCtx with
  | none =>
    simp only [hctx]
    exact ⟨by trivial, by trivial⟩
  | some ctx =>
    simp only [hctx]
    by_cases htg : n.toNat ≤ ctx.targetIndex
    · rw [if_pos htg, abortScrollToCore_some vc ctx _ hctx]
      exact ⟨by trivial, by trivial⟩
    · rw [if_neg htg]
      exact ⟨by trivial, by trivial⟩

/-- C8: `setTotal` frame effect.  Growing appends rows of the shared
default height, the first appended row's `top` being the old table's
final `bottom` (0 for an empty table); shrinking drops only trailing
rows; an unchanged count is a complete no-op; and in all cases every
surviving row's record (in particular its `height`) is unchanged. -/
theorem c8_setTotal_frame (vc : VirtualCore) (n : Int)
    (hlen : vc.positions.length = vc.total) :
    (n.toNat = vc.total → setTotal vc n = (vc, []))
    ∧ (vc.total < n.toNat →
        (setTotal vc n).1.total = n.toNat
        ∧ (setTotal vc n).1.positions.length = n.toNat
        ∧ (∀ i, i < vc.total →
            pget (setTotal vc n).1.positions i = pget vc.positions i)
        ∧ (∀ i, vc.total ≤ i → i < n.toNat →
            (pget (setTotal vc n).1.positions i).height = vc.defaultHeight)
        ∧ (pget (setTotal vc n).1.positions vc.total).top =
            (if vc.total = 0 then 0 else (pget vc.positions (vc.total - 1)).bottom))
    ∧ (n.toNat < vc.total →
        (setTotal vc n).1.total = n.toNat
        ∧ (setTotal vc n).1.positions = vc.positions.take n.toNat
        ∧ ∀ i, i < n.toNat →
            pget (setTotal vc n).1.positions i = pget vc.positions i) := by
  refine ⟨?_, ?_, ?_⟩
  · intro h
    unfold setTotal
    dsimp only
    rw [if_pos h]
  · intro hg
    obtain ⟨ht, hp⟩ := setTotal_state vc n (by omega)
    rw [if_pos hg] at hp
    refine ⟨ht, ?_, ?_, ?_, ?_⟩
    · rw [hp, List.length_append, List.length_map, List.length_range]
      omega
    · intro i hi
      rw [hp, pget_append_left _ _ i (by omega)]
    · intro i hi1 hi2
      rw [hp, pget_append_right _ _ i (by omega), hlen]
      rw [pget_range_map _ _ _ (by omega)]
    · rw [hp, pget_append_right _ _ vc.total (by omega), hlen, Nat.sub_self]
      rw [pget_range_map _ _ _ (by omega)]
      dsimp only
      by_cases h0 : 0 < vc.total
      · rw [if_pos (And.intro h0 (by omega)), if_neg (by omega)]
        simp
      · rw [if_neg (fun hc => h0 hc.1), if_pos (by omega)]
        simp
  · intro hs
    obtain ⟨ht, hp⟩ := setTotal_state vc n (by omega)
    rw [if_neg (by omega)] at hp
    refine ⟨ht, hp, ?_⟩
    intro i hi
    rw [hp, pget_take _ _ _ hi]

theorem c8_setTotal_frame_witness :
    ((4 : Int).toNat = (create 2 10 none).1.total →
      setTotal (create 2 10 none).1 4 = ((create 2 10 none).1, []))
    ∧ ((create 2 10 none).1.total < (4 : Int).toNat →
        (setTotal (create 2 10 none).1 4).1.total = (4 : Int).toNat
        ∧ (setTotal (create 2 10 none).1 4).1.positions.length = (4 : Int).toNat
        ∧ (∀ i, i < (create 2 10 none).1.total →
            pget (setTotal (create 2 10 none).1 4).1.positions i =
              pget (create 2 10 none).1.positions i)
        ∧ (∀ i, (create 2 10 none).1.total ≤ i → i < (4 : Int).toNat →
            (pget (setTotal (create 2 10 none).1 4).1.positions i).height =
              (create 2 10 none).1.defaultHeight)
        ∧ (pget (setTotal (create 2 10 none).1 4).1.positions
              (create 2 10 none).1.total).top =
            (if (create 2 10 none).1.total = 0 then 0
             else (pget (create 2 10 none).1.positions
                ((create 2 10 none).1.total - 1)).bottom))
    ∧ ((4 : Int).toNat < (create 2 10 none).1.total →
        (setTotal (create 2 10 none).1 4).1.total = (4 : Int).toNat
        ∧ (setTotal (create 2 10 none).1 4).1.positions =
            (create 2 10 none).1.positions.take (4 : Int).toNat
        ∧ ∀ i, i < (4 : Int).toNat →
            pget (setTotal (create 2 10 none).1 4).1.positions i =
              pget (create 2 10 none).1.positions i) :=
  c8_setTotal_frame (create 2 10 none).1 4 (by decide)

/-- C9: `setTotal` shrink invalidation.  If a session targeting row `t`
is active and `setTotal` changes the count to a value with `t` out of
range, the session is aborted with reason
"target index out of range after setTotal", the abort event preceding
the height notification that accompanies the resize, and the session is
cleared. -/
theorem c9_shrink_abort (vc : VirtualCore) (n : Int) (ctx : ScrollToContext)
    (hctx : vc.scrollToCtx = some ctx) (hne : n.toNat ≠ vc.total)
    (htgt : n.toNat ≤ ctx.targetIndex) :
    (setTotal vc n).2 =
      [Event.onAbort ctx.cb "target index out of range after setTotal",
       Event.heightChange (getTotalHeight (setTotal vc n).1)]
    ∧ (setTotal vc n).1.scrollToCtx = none := by
  unfold setTotal
  dsimp only
  rw [if_neg hne]
  simp only [hctx]
  rw [if_pos htgt, abortScrollToCore_some vc ctx _ hctx]
  exact ⟨rfl, rfl⟩

/-- A concrete state with an active session targeting row 50. -/
def coreW9 : VirtualCore :=
  { total := 60, defaultHeight := 10, buffer := 5, positions := initRows 60 10,
    scrollToCtx := some { targetIndex := 50, lastTop := 500, iterations := 1, maxIterations := 10, threshold := 10, cb := 3, status := ScrollToStatus.scrolling, pendingHeightUpdate := false } }

theorem c9_shrink_abort_witness :
    (setTotal coreW9 10).2 =
      [Event.onAbort 3 "target index out of range after setTotal",
       Event.heightChange (getTotalHeight (setTotal coreW9 10).1)]
    ∧ (setTotal coreW9 10).1.scrollToCtx = none :=
  c9_shrink_abort coreW9 10
    { targetIndex := 50, lastTop := 500, iterations := 1, maxIterations := 10, threshold := 10, cb := 3, status := ScrollToStatus.scrolling, pendingHeightUpdate := false }
    rfl (by decide) (by decide)

end VirtualCore

namespace VirtualCore

/-! ### Characterisation of the scroll-to protocol steps (C4, C5, C10) -/

theorem scrollToIndex_fresh (vc : VirtualCore) (index : Int) (cb : Nat)
    (options : ScrollToOptions) (hctx : vc.scrollToCtx = none) (h0 : vc.total ≠ 0) :
    scrollToIndex vc index cb options =
      ({ vc with scrollToCtx := some { targetIndex := clampIdx vc index, lastTop := (pget vc.positions (clampIdx vc index)).top, iterations := 1, maxIterations := options.maxIterations.getD 10, threshold := options.threshold.getD vc.defaultHeight, cb := cb, status := ScrollToStatus.scrolling, pendingHeightUpdate := false } },
       [Event.onScroll cb (pget vc.positions (clampIdx vc index)).top]) := by
  unfold scrollToIndex
  dsimp only
  rw [if_neg h0]
  simp only [hctx, Option.isSome_none, Bool.false_eq_true, if_false]
  rfl

theorem notify_scrolling (vc : VirtualCore) (ctx : ScrollToContext)
    (hctx : vc.scrollToCtx = some ctx) (hs : ctx.status = ScrollToStatus.scrolling) :
    notifyScrollComplete vc =
      checkConv { vc with scrollToCtx := some { ctx with pendingHeightUpdate := false, status := ScrollToStatus.waiting } } := by
  unfold notifyScrollComplete
  rw [hctx]
  dsimp only
  rw [if_pos hs]

theorem notify_not_scrolling (vc : VirtualCore) (ctx : ScrollToContext)
    (hctx : vc.scrollToCtx = some ctx) (hs : ctx.status ≠ ScrollToStatus.scrolling) :
    notifyScrollComplete vc = (vc, []) := by
  unfold notifyScrollComplete
  rw [hctx]
  dsimp only
  rw [if_neg hs]

theorem notify_none (vc : VirtualCore) (hctx : vc.scrollToCtx = none) :
    notifyScrollComplete vc = (vc, []) := by
  unfold notifyScrollComplete
  rw [hctx]

theorem checkConv_complete (vc : VirtualCore) (ctx : ScrollToContext)
    (hctx : vc.scrollToCtx = some ctx) (hw : ctx.status = ScrollToStatus.waiting)
    (hd : |(pget vc.positions ctx.targetIndex).top - ctx.lastTop| ≤ ctx.threshold) :
    checkConv vc = ({ vc with scrollToCtx := none },
      [Event.onComplete ctx.cb (pget vc.positions ctx.targetIndex).top ctx.iterations]) := by
  unfold checkConv
  rw [hctx]
  dsimp only
  rw [if_pos hw, if_pos hd]

theorem checkConv_maxed (vc : VirtualCore) (ctx : ScrollToContext)
    (hctx : vc.scrollToCtx = some ctx) (hw : ctx.status = ScrollToStatus.waiting)
    (hd : ¬ |(pget vc.positions ctx.targetIndex).top - ctx.lastTop| ≤ ctx.threshold)
    (hit : ctx.maxIterations ≤ ctx.iterations) :
    checkConv vc = ({ vc with scrollToCtx := none },
      [Event.onAbort ctx.cb
        ("max iterations (" ++ toString ctx.maxIterations ++ ") reached")]) := by
  unfold checkConv
  rw [hctx]
  dsimp only
  rw [if_pos hw, if_neg hd, if_pos hit, abortScrollToCore_some vc ctx _ hctx]

theorem checkConv_continue (vc : VirtualCore) (ctx : ScrollToContext)
    (hctx : vc.scrollToCtx = some ctx) (hw : ctx.status = ScrollToStatus.waiting)
    (hd : ¬ |(pget vc.positions ctx.targetIndex).top - ctx.lastTop| ≤ ctx.threshold)
    (hit : ¬ ctx.maxIterations ≤ ctx.iterations) :
    checkConv vc =
      ({ vc with scrollToCtx := some { ctx with lastTop := (pget vc.positions ctx.targetIndex).top, iterations := ctx.iterations + 1, status := ScrollToStatus.scrolling, pendingHeightUpdate := false } },
       [Event.onScroll ctx.cb (pget vc.positions ctx.targetIndex).top]) := by
  unfold checkConv
  rw [hctx]
  dsimp only
  rw [if_pos hw, if_neg hd, if_neg hit, doScroll_some _ _ _ rfl]

/-- C4: scroll-to convergence without estimation error.  With no session
active, `scrollToIndex(k)` for a valid `k` issues a single
`onScroll(positions[k].top)`; if no height update changes any position
before the scroll-completion signal (stored heights already correct),
the session completes on that signal with
`onComplete(positions[k].top, 1)` — exactly one iteration — and the
session is cleared. -/
theorem c4_converges_one_iteration (vc : VirtualCore) (k : Nat) (cb : Nat)
    (hk : k < vc.total) (hctx : vc.scrollToCtx = none)
    (hth : 0 ≤ vc.defaultHeight) :
    (scrollToIndex vc k cb ⟨none, none⟩).2 =
      [Event.onScroll cb (pget vc.positions k).top]
    ∧ (notifyScrollComplete (scrollToIndex vc k cb ⟨none, none⟩).1).2 =
      [Event.onComplete cb (pget vc.positions k).top 1]
    ∧ (notifyScrollComplete (scrollToIndex vc k cb ⟨none, none⟩).1).1.scrollToCtx
        = none := by
  have hclamp : clampIdx vc k = k := by
    unfold clampIdx
    rw [if_neg (by omega), if_neg (by omega)]
    simp
  have h1 := scrollToIndex_fresh vc k cb ⟨none, none⟩ hctx (by omega)
  rw [hclamp] at h1
  have h2 : (notifyScrollComplete (scrollToIndex vc (k : Int) cb ⟨none, none⟩).1) =
      ({ vc with scrollToCtx := none },
       [Event.onComplete cb (pget vc.positions k).top 1]) := by
    rw [h1]
    dsimp only
    rw [notify_scrolling _ _ rfl rfl]
    rw [checkConv_complete _ _ rfl rfl (by
      dsimp only
      rw [sub_self, abs_zero]
      exact hth)]
  refine ⟨?_, ?_, ?_⟩
  · rw [h1]
  · rw [h2]
  · rw [h2]

theorem c4_converges_one_iteration_witness :
    (scrollToIndex (create 3 10 none).1 2 1 ⟨none, none⟩).2 =
      [Event.onScroll 1 (pget (create 3 10 none).1.positions 2).top]
    ∧ (notifyScrollComplete (scrollToIndex (create 3 10 none).1 2 1 ⟨none, none⟩).1).2 =
      [Event.onComplete 1 (pget (create 3 10 none).1.positions 2).top 1]
    ∧ (notifyScrollComplete
        (scrollToIndex (create 3 10 none).1 2 1 ⟨none, none⟩).1).1.scrollToCtx
        = none :=
  c4_converges_one_iteration (create 3 10 none).1 2 1 (by decide) (by decide)
    (by decide)

/-- C10: whenever a terminal callback fires, the session has already been
cleared: the state returned together with an `onAbort` or `onComplete`
event has `isScrolling() = false`, and a `scrollToIndex` issued against
that cleared state (list nonempty) starts a fresh session whose only
event is its own `onScroll` — no further abort of the session that just
terminated. -/
theorem c10_terminal_cleared (vc : VirtualCore) (ctx : ScrollToContext) (r : String)
    (index : Int) (cb : Nat) (options : ScrollToOptions) :
    (vc.scrollToCtx = some ctx →
      abortScrollToCore vc r =
        ({ vc with scrollToCtx := none }, [Event.onAbort ctx.cb r])
      ∧ isScrolling (abortScrollToCore vc r).1 = false)
    ∧ (vc.scrollToCtx = some ctx → ctx.status = ScrollToStatus.waiting →
        |(pget vc.positions ctx.targetIndex).top - ctx.lastTop| ≤ ctx.threshold →
        checkConv vc = ({ vc with scrollToCtx := none },
          [Event.onComplete ctx.cb (pget vc.positions ctx.targetIndex).top
            ctx.iterations])
        ∧ isScrolling (checkConv vc).1 = false)
    ∧ (vc.scrollToCtx = none → 0 < vc.total →
        (scrollToIndex vc index cb options).2 =
          [Event.onScroll cb (pget vc.positions (clampIdx vc index)).top]
        ∧ (scrollToIndex vc index cb options).1.scrollToCtx ≠ none) := by
  refine ⟨?_, ?_, ?_⟩
  · intro h
    refine ⟨abortScrollToCore_some vc ctx r h, ?_⟩
    rw [abortScrollToCore_some vc ctx r h]
    rfl
  · intro h hw hd
    refine ⟨checkConv_complete vc ctx h hw hd, ?_⟩
    rw [checkConv_complete vc ctx h hw hd]
    rfl
  · intro h h0
    rw [scrollToIndex_fresh vc index cb options h (by omega)]
    exact ⟨rfl, by simp⟩

/-- A concrete state with a waiting session that has converged. -/
def coreW10 : VirtualCore :=
  { total := 2, defaultHeight := 10, buffer := 5, positions := initRows 2 10,
    scrollToCtx := some { targetIndex := 1, lastTop := 10, iterations := 1, maxIterations := 10, threshold := 10, cb := 4, status := ScrollToStatus.waiting, pendingHeightUpdate := false } }

theorem c10_terminal_cleared_witness :
    (abortScrollToCore coreW9 "manually aborted" =
        ({ coreW9 with scrollToCtx := none },
         [Event.onAbort 3 "manually aborted"])
      ∧ isScrolling (abortScrollToCore coreW9 "manually aborted").1 = false)
    ∧ (checkConv coreW10 = ({ coreW10 with scrollToCtx := none },
          [Event.onComplete 4 (pget coreW10.positions 1).top 1])
      ∧ isScrolling (checkConv coreW10).1 = false)
    ∧ ((scrollToIndex (create 3 10 none).1 1 7 ⟨none, none⟩).2 =
        [Event.onScroll 7
          (pget (create 3 10 none).1.positions
            (clampIdx (create 3 10 none).1 1)).top]
      ∧ (scrollToIndex (create 3 10 none).1 1 7 ⟨none, none⟩).1.scrollToCtx
          ≠ none) :=
  ⟨(c10_terminal_cleared coreW9
      { targetIndex := 50, lastTop := 500, iterations := 1, maxIterations := 10, threshold := 10, cb := 3, status := ScrollToStatus.scrolling, pendingHeightUpdate := false }
      "manually aborted" 0 0 ⟨none, none⟩).1 rfl,
   (c10_terminal_cleared coreW10
      { targetIndex := 1, lastTop := 10, iterations := 1, maxIterations := 10, threshold := 10, cb := 4, status := ScrollToStatus.waiting, pendingHeightUpdate := false }
      "x" 0 0 ⟨none, none⟩).2.1 rfl rfl (by decide),
   (c10_terminal_cleared (create 3 10 none).1
      { targetIndex := 0, lastTop := 0, iterations := 0, maxIterations := 10, threshold := 0, cb := 0, status := ScrollToStatus.idle, pendingHeightUpdate := false }
      "x" 1 7 ⟨none, none⟩).2.2 (by decide) (by decide)⟩

end VirtualCore

namespace VirtualCore

/-! ### Per-operation event discipline (C5) -/

/-- One public operation applied to the core (the argument of a single
external call). -/
inductive Op where
  | updateH (updates : List HeightUpdate) (st : Int)
  | scrollTo (index : Int) (cb : Nat) (options : ScrollToOptions)
  | notifyComplete
  | abortManual
  | setTot (n : Int)
  | resetTo (n : Option Int)

/-- Dispatch one operation. -/
def applyOp (vc : VirtualCore) : Op → VirtualCore × List Event
  | Op.updateH us st => ((updateHeights vc us st).1, (updateHeights vc us st).2.1)
  | Op.scrollTo i cb o => scrollToIndex vc i cb o
  | Op.notifyComplete => notifyScrollComplete vc
  | Op.abortManual => abortScrollTo vc
  | Op.setTot n => setTotal vc n
  | Op.resetTo n => reset vc n

/-- Event discipline of a single step: at most one terminal callback, and
any terminal callback belongs to the session live before the step and is
delivered with the session already cleared. -/
def StepEventsOk (vc : VirtualCore) (res : VirtualCore × List Event) : Prop :=
  (res.2.filter Event.isTerminal).length ≤ 1
  ∧ ∀ e ∈ res.2, e.isTerminal = true →
      (∃ ctx, vc.scrollToCtx = some ctx ∧ e.cbTag = some ctx.cb)
      ∧ res.1.scrollToCtx = none

theorem checkConv_none (vc : VirtualCore) (h : vc.scrollToCtx = none) :
    checkConv vc = (vc, []) := by
  unfold checkConv
  rw [h]

theorem checkConv_not_waiting (vc : VirtualCore) (ctx : ScrollToContext)
    (h : vc.scrollToCtx = some ctx) (hw : ctx.status ≠ ScrollToStatus.waiting) :
    checkConv vc = (vc, []) := by
  unfold checkConv
  rw [h]
  dsimp only
  rw [if_neg hw]

theorem abort_events (vc : VirtualCore) (r : String) :
    StepEventsOk vc (abortScrollToCore vc r) := by
  cases hctx : vc.scrollToCtx with
  | none =>
    rw [abortScrollToCore_none vc r hctx]
    exact ⟨by simp, by simp⟩
  | some ctx =>
    rw [abortScrollToCore_some vc ctx r hctx]
    refine ⟨by simp [Event.isTerminal, List.filter], ?_⟩
    intro e he ht
    simp at he
    subst he
    exact ⟨⟨ctx, hctx, rfl⟩, rfl⟩

theorem checkConv_events (vc : VirtualCore) : StepEventsOk vc (checkConv vc) := by
  cases hctx : vc.scrollToCtx with
  | none =>
    rw [checkConv_none vc hctx]
    exact ⟨by simp, by simp⟩
  | some ctx =>
    by_cases hw : ctx.status = ScrollToStatus.waiting
    · by_cases hd : |(pget vc.positions ctx.targetIndex).top - ctx.lastTop| ≤ ctx.threshold
      · rw [checkConv_complete vc ctx hctx hw hd]
        refine ⟨by simp [Event.isTerminal, List.filter], ?_⟩
        intro e he ht
        simp at he
        subst he
        exact ⟨⟨ctx, hctx, rfl⟩, rfl⟩
      · by_cases hit : ctx.maxIterations ≤ ctx.iterations
        · rw [checkConv_maxed vc ctx hctx hw hd hit]
          refine ⟨by simp [Event.isTerminal, List.filter], ?_⟩
          intro e he ht
          simp at he
          subst he
          exact ⟨⟨ctx, hctx, rfl⟩, rfl⟩
        · rw [checkConv_continue vc ctx hctx hw hd hit]
          refine ⟨by simp [Event.isTerminal, List.filter], ?_⟩
          intro e he ht
          simp at he
          subst he
          simp [Event.isTerminal] at ht
    · rw [checkConv_not_waiting vc ctx hctx hw]
      exact ⟨by simp, by simp⟩

theorem stepEventsOk_heightChange_checkConv (vc w : VirtualCore) (h : Int)
    (hw : w.scrollToCtx = vc.scrollToCtx) :
    StepEventsOk vc ((checkConv w).1, Event.heightChange h :: (checkConv w).2) := by
  obtain ⟨h1, h2⟩ := checkConv_events w
  constructor
  · simpa [Event.isTerminal, List.filter_cons] using h1
  · intro e he ht
    rcases List.mem_cons.mp he with he1 | he2
    · subst he1
      simp [Event.isTerminal] at ht
    · obtain ⟨⟨ctx, hctx, htag⟩, hpost⟩ := h2 e he2 ht
      exact ⟨⟨ctx, hw ▸ hctx, htag⟩, hpost⟩

theorem updateHeights_events (vc : VirtualCore) (us : List HeightUpdate) (st : Int) :
    StepEventsOk vc ((updateHeights vc us st).1, (updateHeights vc us st).2.1) := by
  unfold updateHeights
  dsimp only
  split
  · exact ⟨by simp, by simp⟩
  · split
    · cases hctx : vc.scrollToCtx with
      | none =>
        simp only [hctx]
        refine ⟨by simp [Event.isTerminal, List.filter], ?_⟩
        intro e he ht
        simp at he
        subst he
        simp [Event.isTerminal] at ht
      | some ctx =>
        simp only [hctx]
        by_cases hs : ctx.status = ScrollToStatus.scrolling
        · rw [if_pos hs]
          dsimp only
          refine ⟨by simp [Event.isTerminal, List.filter], ?_⟩
          intro e he ht
          simp at he
          subst he
          simp [Event.isTerminal] at ht
        · rw [if_neg hs]
          by_cases hw : ctx.status = ScrollToStatus.waiting
          · rw [if_pos hw]
            dsimp only
            exact stepEventsOk_heightChange_checkConv vc _ _ hctx.symm
          · rw [if_neg hw]
            refine ⟨by simp [Event.isTerminal, List.filter], ?_⟩
            intro e he ht
            simp at he
            subst he
            simp [Event.isTerminal] at ht
    · exact ⟨by simp, by simp⟩

theorem notify_events (vc : VirtualCore) :
    StepEventsOk vc (notifyScrollComplete vc) := by
  cases hctx : vc.scrollToCtx with
  | none =>
    rw [notify_none vc hctx]
    exact ⟨by simp, by simp⟩
  | some ctx =>
    by_cases hs : ctx.status = ScrollToStatus.scrolling
    · rw [notify_scrolling vc ctx hctx hs]
      obtain ⟨h1, h2⟩ := checkConv_events
        { vc with scrollToCtx := some { ctx with pendingHeightUpdate := false, status := ScrollToStatus.waiting } }
      refine ⟨h1, ?_⟩
      intro e he ht
      obtain ⟨⟨ctx', hctx', htag⟩, hpost⟩ := h2 e he ht
      have hinj : ctx' = { ctx with pendingHeightUpdate := false, status := ScrollToStatus.waiting } := by
        have h' := hctx'
        dsimp only at h'
        exact (Option.some.inj h').symm
      rw [hinj] at htag
      exact ⟨⟨ctx, hctx, htag⟩, hpost⟩
    · rw [notify_not_scrolling vc ctx hctx hs]
      exact ⟨by simp, by simp⟩

theorem setTotal_events (vc : VirtualCore) (n : Int) :
    StepEventsOk vc (setTotal vc n) := by
  unfold setTotal
  dsimp only
  split
  · exact ⟨by simp, by simp⟩
  · cases hctx : vc.scrollToCtx with
    | none =>
      simp only [hctx]
      refine ⟨by simp [Event.isTerminal, List.filter], ?_⟩
      intro e he ht
      simp at he
      subst he
      simp [Event.isTerminal] at ht
    | some ctx =>
      simp only [hctx]
      by_cases htg : n.toNat ≤ ctx.targetIndex
      · rw [if_pos htg, abortScrollToCore_some vc ctx _ hctx]
        refine ⟨by simp [Event.isTerminal, List.filter], ?_⟩
        intro e he ht
        rcases (by simpa using he : e = Event.onAbort ctx.cb _ ∨ e = Event.heightChange _) with he1 | he1
        · subst he1
          exact ⟨⟨ctx, hctx, rfl⟩, rfl⟩
        · subst he1
          simp [Event.isTerminal] at ht
      · rw [if_neg htg]
        refine ⟨by simp [Event.isTerminal, List.filter], ?_⟩
        intro e he ht
        simp at he
        subst he
        simp [Event.isTerminal] at ht

theorem reset_events (vc : VirtualCore) (n : Option Int) :
    StepEventsOk vc (reset vc n) := by
  unfold reset initPositions
  dsimp only
  cases n with
  | none =>
    dsimp only
    cases hctx : vc.scrollToCtx with
    | none =>
      simp only [hctx, Option.isSome_none, Bool.false_eq_true, if_false]
      refine ⟨by simp [Event.isTerminal, List.filter], ?_⟩
      intro e he ht
      simp at he
      subst he
      simp [Event.isTerminal] at ht
    | some ctx =>
      simp only [hctx, Option.isSome_some, if_true]
      rw [abortScrollToCore_some vc ctx _ hctx]
      refine ⟨by simp [Event.isTerminal, List.filter], ?_⟩
      intro e he ht
      simp at he
      rcases he with he1 | he1 <;> subst he1
      · exact ⟨⟨ctx, hctx, rfl⟩, rfl⟩
      · simp [Event.isTerminal] at ht
  | some m =>
    dsimp only
    cases hctx : vc.scrollToCtx with
    | none =>
      simp only [hctx, Option.isSome_none, Bool.false_eq_true, if_false]
      refine ⟨by simp [Event.isTerminal, List.filter], ?_⟩
      intro e he ht
      simp at he
      subst he
      simp [Event.isTerminal] at ht
    | some ctx =>
      simp only [hctx, Option.isSome_some, if_true]
      rw [abortScrollToCore_some vc ctx _ hctx]
      refine ⟨by simp [Event.isTerminal, List.filter], ?_⟩
      intro e he ht
      simp at he
      rcases he with he1 | he1 <;> subst he1
      · exact ⟨⟨ctx, hctx, rfl⟩, rfl⟩
      · simp [Event.isTerminal] at ht

end VirtualCore

namespace VirtualCore

theorem scrollToIndex_empty (vc : VirtualCore) (index : Int) (cb : Nat)
    (options : ScrollToOptions) (h0 : vc.total = 0) :
    scrollToIndex vc index cb options = (vc, [Event.onComplete cb 0 0]) := by
  unfold scrollToIndex
  dsimp only
  rw [if_pos h0]

theorem scrollToIndex_active (vc : VirtualCore) (ctx : ScrollToContext)
    (index : Int) (cb : Nat) (options : ScrollToOptions)
    (hctx : vc.scrollToCtx = some ctx) (h0 : vc.total ≠ 0) :
    scrollToIndex vc index cb options =
      ({ vc with scrollToCtx := some { targetIndex := clampIdx vc index, lastTop := (pget vc.positions (clampIdx vc index)).top, iterations := 1, maxIterations := options.maxIterations.getD 10, threshold := options.threshold.getD vc.defaultHeight, cb := cb, status := ScrollToStatus.scrolling, pendingHeightUpdate := false } },
       [Event.onAbort ctx.cb "new scroll requested",
        Event.onScroll cb (pget vc.positions (clampIdx vc index)).top]) := by
  unfold scrollToIndex
  dsimp only
  rw [if_neg h0]
  simp only [hctx, Option.isSome_some, if_true]
  rw [abortScrollToCore_some vc ctx _ hctx]
  rfl

/-- C5: single-session exclusivity.  For every public operation: at most
one terminal callback fires in the step; calling `scrollToIndex` with a
session active (nonempty list) first fires the old session's
`onAbort("new scroll requested")` and only then the new session's
`onScroll`; every terminal callback belongs to the session live before
the step (except the degenerate empty-list `scrollToIndex`, which
completes its own caller immediately without ever creating a session);
and for every operation other than `scrollToIndex` a terminal callback
implies the session is cleared — `onComplete`/`onAbort` are mutually
exclusive, at-most-once terminal outcomes of a session. -/
theorem c5_session_exclusivity (vc : VirtualCore) (op : Op) :
    ((applyOp vc op).2.filter Event.isTerminal).length ≤ 1
    ∧ (∀ ctx i cb o, vc.scrollToCtx = some ctx → 0 < vc.total →
        op = Op.scrollTo i cb o →
        (applyOp vc op).2 =
          [Event.onAbort ctx.cb "new scroll requested",
           Event.onScroll cb (pget vc.positions (clampIdx vc i)).top])
    ∧ (∀ e ∈ (applyOp vc op).2, e.isTerminal = true →
        (∃ ctx, vc.scrollToCtx = some ctx ∧ e.cbTag = some ctx.cb)
        ∨ (∃ i cb o, op = Op.scrollTo i cb o ∧ vc.total = 0 ∧ e.cbTag = some cb))
    ∧ (∀ e ∈ (applyOp vc op).2, e.isTerminal = true →
        (∀ i cb o, op ≠ Op.scrollTo i cb o) →
        (applyOp vc op).1.scrollToCtx = none) := by
  cases op with
  | updateH us st =>
    obtain ⟨h1, h2⟩ := updateHeights_events vc us st
    exact ⟨h1, fun ctx i cb o _ _ heq => by simp at heq,
      fun e he ht => Or.inl (h2 e he ht).1,
      fun e he ht _ => (h2 e he ht).2⟩
  | notifyComplete =>
    obtain ⟨h1, h2⟩ := notify_events vc
    exact ⟨h1, fun ctx i cb o _ _ heq => by simp at heq,
      fun e he ht => Or.inl (h2 e he ht).1,
      fun e he ht _ => (h2 e he ht).2⟩
  | abortManual =>
    obtain ⟨h1, h2⟩ := abort_events vc "manually aborted"
    exact ⟨h1, fun ctx i cb o _ _ heq => by simp at heq,
      fun e he ht => Or.inl (h2 e he ht).1,
      fun e he ht _ => (h2 e he ht).2⟩
  | setTot n =>
    obtain ⟨h1, h2⟩ := setTotal_events vc n
    exact ⟨h1, fun ctx i cb o _ _ heq => by simp at heq,
      fun e he ht => Or.inl (h2 e he ht).1,
      fun e he ht _ => (h2 e he ht).2⟩
  | resetTo n =>
    obtain ⟨h1, h2⟩ := reset_events vc n
    exact ⟨h1, fun ctx i cb o _ _ heq => by simp at heq,
      fun e he ht => Or.inl (h2 e he ht).1,
      fun e he ht _ => (h2 e he ht).2⟩
  | scrollTo i cb o =>
    by_cases h0 : vc.total = 0
    · have hs := scrollToIndex_empty vc i cb o h0
      refine ⟨?_, ?_, ?_, ?_⟩
      · show ((scrollToIndex vc i cb o).2.filter Event.isTerminal).length ≤ 1
        rw [hs]
        simp [Event.isTerminal, List.filter]
      · intro ctx i' cb' o' _ htot _
        omega
      · intro e he ht
        show _ ∨ _
        right
        refine ⟨i, cb, o, rfl, h0, ?_⟩
        have he' : e ∈ (scrollToIndex vc i cb o).2 := he
        rw [hs] at he'
        simp at he'
        subst he'
        rfl
      · intro e he ht hne
        exact absurd rfl (hne i cb o)
    · cases hctx : vc.scrollToCtx with
      | none =>
        have hs := scrollToIndex_fresh vc i cb o hctx h0
        refine ⟨?_, ?_, ?_, ?_⟩
        · show ((scrollToIndex vc i cb o).2.filter Event.isTerminal).length ≤ 1
          rw [hs]
          simp [Event.isTerminal, List.filter]
        · intro ctx i' cb' o' hctx' _ _
          exact absurd hctx' (by simp)
        · intro e he ht
          have he' : e ∈ (scrollToIndex vc i cb o).2 := he
          rw [hs] at he'
          simp at he'
          subst he'
          simp [Event.isTerminal] at ht
        · intro e he ht hne
          exact absurd rfl (hne i cb o)
      | some ctx =>
        have hs := scrollToIndex_active vc ctx i cb o hctx h0
        refine ⟨?_, ?_, ?_, ?_⟩
        · show ((scrollToIndex vc i cb o).2.filter Event.isTerminal).length ≤ 1
          rw [hs]
          simp [Event.isTerminal, List.filter]
        · intro ctx' i' cb' o' hctx' _ heq
          have hc : ctx = ctx' := Option.some.inj hctx'
          obtain ⟨hi, hcb, ho⟩ : i = i' ∧ cb = cb' ∧ o = o' := by
            injection heq with a b c
            exact ⟨a, b, c⟩
          subst hc
          subst hi
          subst hcb
          subst ho
          show (scrollToIndex vc i cb o).2 = _
          rw [hs]
        · intro e he ht
          have he' : e ∈ (scrollToIndex vc i cb o).2 := he
          rw [hs] at he'
          simp at he'
          rcases he' with he1 | he1 <;> subst he1
          · exact Or.inl ⟨ctx, rfl, rfl⟩
          · simp [Event.isTerminal] at ht
        · intro e he ht hne
          exact absurd rfl (hne i cb o)

theorem c5_session_exclusivity_witness :
    (((applyOp coreW9 (Op.scrollTo 1 2 ⟨none, none⟩)).2.filter
        Event.isTerminal).length ≤ 1)
    ∧ (applyOp coreW9 (Op.scrollTo 1 2 ⟨none, none⟩)).2 =
        [Event.onAbort 3 "new scroll requested",
         Event.onScroll 2 (pget coreW9.positions (clampIdx coreW9 1)).top] :=
  ⟨(c5_session_exclusivity coreW9 (Op.scrollTo 1 2 ⟨none, none⟩)).1,
   (c5_session_exclusivity coreW9 (Op.scrollTo 1 2 ⟨none, none⟩)).2.1
     { targetIndex := 50, lastTop := 500, iterations := 1, maxIterations := 10, threshold := 10, cb := 3, status := ScrollToStatus.scrolling, pendingHeightUpdate := false }
     1 2 ⟨none, none⟩ rfl (by decide) rfl⟩

end VirtualCore

namespace VirtualCore

/-! ### The scroll-render-measure round driver (C6) -/

/-- One environment round during a scroll-to session: the host measures
heights (calling `updateHeights`) and then signals that the scroll
animation settled (`notifyScrollComplete`). -/
def roundStep (env : Nat → List HeightUpdate × Int) (k : Nat) (vc : VirtualCore) :
    VirtualCore × List Event :=
  let r1 := updateHeights vc (env k).1 (env k).2
  let r2 := notifyScrollComplete r1.1
  (r2.1, r1.2.1 ++ r2.2)

/-- Run `n` rounds, collecting all events. -/
def runRounds (env : Nat → List HeightUpdate × Int) : Nat → VirtualCore → VirtualCore × List Event
  | 0, vc => (vc, [])
  | k + 1, vc =>
      let r := runRounds env k vc
      let s := roundStep env k (r.1)
      (s.1, r.2 ++ s.2)

/-- The state right before round `k`'s completion signal (after that
round's height measurement). -/
def midState (env : Nat → List HeightUpdate × Int) (k : Nat) (vc : VirtualCore) :
    VirtualCore :=
  (updateHeights (runRounds env k vc).1 (env k).1 (env k).2).1

/-- Does the target's current `top` drift from the session's `lastTop` by
strictly more than the threshold? -/
def driftExceedsB (vc : VirtualCore) : Bool :=
  match vc.scrollToCtx with
  | some ctx =>
      decide (ctx.threshold < |(pget vc.positions ctx.targetIndex).top - ctx.lastTop|)
  | none => false

theorem isComplete_false_of_not_terminal (e : Event) (h : e.isTerminal = false) :
    e.isComplete = false := by
  cases e <;> simp [Event.isTerminal, Event.isComplete] at *

theorem updateHeights_scrolling (vc : VirtualCore) (ctx : ScrollToContext)
    (us : List HeightUpdate) (st : Int)
    (hctx : vc.scrollToCtx = some ctx) (hs : ctx.status = ScrollToStatus.scrolling) :
    (∃ c', (updateHeights vc us st).1.scrollToCtx = some c'
      ∧ c'.status = ScrollToStatus.scrolling
      ∧ c'.iterations = ctx.iterations
      ∧ c'.maxIterations = ctx.maxIterations
      ∧ c'.cb = ctx.cb
      ∧ c'.threshold = ctx.threshold
      ∧ c'.targetIndex = ctx.targetIndex
      ∧ c'.lastTop = ctx.lastTop)
    ∧ ∀ e ∈ (updateHeights vc us st).2.1, e.isTerminal = false := by
  unfold updateHeights
  dsimp only
  split
  · exact ⟨⟨ctx, hctx, hs, rfl, rfl, rfl, rfl, rfl, rfl⟩, by simp⟩
  · split
    · simp only [hctx]
      rw [if_pos hs]
      dsimp only
      refine ⟨⟨{ ctx with pendingHeightUpdate := true }, rfl, hs, rfl, rfl, rfl, rfl, rfl, rfl⟩, ?_⟩
      intro e he
      simp at he
      subst he
      rfl
    · exact ⟨⟨ctx, hctx, hs, rfl, rfl, rfl, rfl, rfl, rfl⟩, by simp⟩

theorem notify_continues (w : VirtualCore) (c : ScrollToContext)
    (hctx : w.scrollToCtx = some c) (hs : c.status = ScrollToStatus.scrolling)
    (hd : c.threshold < |(pget w.positions c.targetIndex).top - c.lastTop|)
    (hit : ¬ c.maxIterations ≤ c.iterations) :
    notifyScrollComplete w =
      ({ w with scrollToCtx := some { c with lastTop := (pget w.positions c.targetIndex).top, iterations := c.iterations + 1, status := ScrollToStatus.scrolling, pendingHeightUpdate := false } },
       [Event.onScroll c.cb (pget w.positions c.targetIndex).top]) := by
  rw [notify_scrolling w c hctx hs]
  rw [checkConv_continue { w with scrollToCtx := some { c with pendingHeightUpdate := false, status := ScrollToStatus.waiting } } { c with pendingHeightUpdate := false, status := ScrollToStatus.waiting } rfl rfl (not_le.mpr hd) hit]

theorem notify_aborts (w : VirtualCore) (c : ScrollToContext)
    (hctx : w.scrollToCtx = some c) (hs : c.status = ScrollToStatus.scrolling)
    (hd : c.threshold < |(pget w.positions c.targetIndex).top - c.lastTop|)
    (hit : c.maxIterations ≤ c.iterations) :
    notifyScrollComplete w =
      ({ w with scrollToCtx := none },
       [Event.onAbort c.cb
         ("max iterations (" ++ toString c.maxIterations ++ ") reached")]) := by
  rw [notify_scrolling w c hctx hs]
  rw [checkConv_maxed { w with scrollToCtx := some { c with pendingHeightUpdate := false, status := ScrollToStatus.waiting } } { c with pendingHeightUpdate := false, status := ScrollToStatus.waiting } rfl rfl (not_le.mpr hd) hit]

theorem maxIter10_string :
    "max iterations (" ++ toString (10 : Nat) ++ ") reached" =
      "max iterations (10) reached" := by decide

theorem runRounds_invariant (env : Nat → List HeightUpdate × Int) (vc : VirtualCore)
    (ctx : ScrollToContext) (hctx : vc.scrollToCtx = some ctx)
    (hs : ctx.status = ScrollToStatus.scrolling) (hit1 : ctx.iterations = 1)
    (hmax : ctx.maxIterations = 10) :
    ∀ k, k ≤ 9 →
    (∀ j, j < k → driftExceedsB (midState env j vc) = true) →
    ∃ ctx', (runRounds env k vc).1.scrollToCtx = some ctx'
      ∧ ctx'.status = ScrollToStatus.scrolling
      ∧ ctx'.iterations = k + 1
      ∧ ctx'.maxIterations = 10
      ∧ ctx'.cb = ctx.cb
      ∧ ∀ e ∈ (runRounds env k vc).2, e.isTerminal = false := by
  intro k
  induction k with
  | zero =>
    intro _ _
    exact ⟨ctx, hctx, hs, by omega, hmax, rfl, by simp [runRounds]⟩
  | succ k ihk =>
    intro hk9 hdr
    obtain ⟨c', hc', hs', hi', hm', hcb', hev'⟩ :=
      ihk (by omega) (fun j hj => hdr j (by omega))
    obtain ⟨⟨c'', hum, hs'', hi'', hm'', hcb'', hth'', htg'', hlt''⟩, hupev⟩ :=
      updateHeights_scrolling (runRounds env k vc).1 c' (env k).1 (env k).2 hc' hs'
    have hdk := hdr k (by omega)
    unfold midState driftExceedsB at hdk
    rw [hum] at hdk
    have hdd := of_decide_eq_true hdk
    have hnot := notify_continues
      (updateHeights (runRounds env k vc).1 (env k).1 (env k).2).1 c'' hum hs'' hdd
      (by omega)
    simp only [runRounds, roundStep]
    rw [hnot]
    refine ⟨_, rfl, rfl, ?_, ?_, ?_, ?_⟩
    · show c''.iterations + 1 = (k + 1) + 1
      omega
    · show c''.maxIterations = 10
      omega
    · show c''.cb = ctx.cb
      rw [hcb'']
      exact hcb'
    · intro e he
      rcases List.mem_append.mp he with h1 | h2
      · exact hev' e h1
      · rcases List.mem_append.mp h2 with h3 | h4
        · exact hupev e h3
        · simp at h4
          subst h4
          rfl

/-- C6: iteration cap.  If a fresh session (one scroll already issued,
`iterations = 1`, default `maxIterations = 10`) observes, at every one of
its convergence checks, a target `top` drifting from `lastTop` by
strictly more than the threshold, then after 10 scroll iterations the
run ends with the session cleared and
`onAbort("max iterations (10) reached")`, and `onComplete` never fires. -/
theorem c6_iteration_cap (vc : VirtualCore) (env : Nat → List HeightUpdate × Int)
    (ctx : ScrollToContext) (hctx : vc.scrollToCtx = some ctx)
    (hs : ctx.status = ScrollToStatus.scrolling) (hit1 : ctx.iterations = 1)
    (hmax : ctx.maxIterations = 10)
    (hdrift : ∀ k, k < 10 → driftExceedsB (midState env k vc) = true) :
    (runRounds env 10 vc).1.scrollToCtx = none
    ∧ Event.onAbort ctx.cb "max iterations (10) reached" ∈ (runRounds env 10 vc).2
    ∧ ∀ e ∈ (runRounds env 10 vc).2, e.isComplete = false := by
  obtain ⟨c', hc', hs', hi', hm', hcb', hev'⟩ :=
    runRounds_invariant env vc ctx hctx hs hit1 hmax 9 (by omega)
      (fun j hj => hdrift j (by omega))
  obtain ⟨⟨c'', hum, hs'', hi'', hm'', hcb'', hth'', htg'', hlt''⟩, hupev⟩ :=
    updateHeights_scrolling (runRounds env 9 vc).1 c' (env 9).1 (env 9).2 hc' hs'
  have hdk := hdrift 9 (by omega)
  unfold midState driftExceedsB at hdk
  rw [hum] at hdk
  have hdd := of_decide_eq_true hdk
  have hab := notify_aborts
    (updateHeights (runRounds env 9 vc).1 (env 9).1 (env 9).2).1 c'' hum hs'' hdd
    (by omega)
  have h10 : runRounds env 10 vc =
      ((roundStep env 9 (runRounds env 9 vc).1).1,
       (runRounds env 9 vc).2 ++ (roundStep env 9 (runRounds env 9 vc).1).2) := rfl
  rw [h10]
  unfold roundStep
  dsimp only
  rw [hab]
  have heq : Event.onAbort c''.cb
      ("max iterations (" ++ toString c''.maxIterations ++ ") reached") =
      Event.onAbort ctx.cb "max iterations (10) reached" := by
    rw [hcb'', hcb', hm'', hm', maxIter10_string]
  refine ⟨rfl, ?_, ?_⟩
  · rw [← heq]
    simp
  · intro e he
    rcases List.mem_append.mp he with h1 | h2
    · exact isComplete_false_of_not_terminal e (hev' e h1)
    · rcases List.mem_append.mp h2 with h3 | h4
      · exact isComplete_false_of_not_terminal e (hupev e h3)
      · simp at h4
        subst h4
        rfl

/-- A freshly started 2-row session targeting row 1. -/
def coreW6 : VirtualCore := (scrollToIndex (create 2 10 none).1 1 7 ⟨none, none⟩).1

/-- An environment whose measurements move the target by 100 pixels
every round. -/
def envW6 : Nat → List HeightUpdate × Int :=
  fun k => ([⟨0, 10 + 100 * ((k : Int) + 1)⟩], 0)

theorem c6_iteration_cap_witness :
    (runRounds envW6 10 coreW6).1.scrollToCtx = none
    ∧ Event.onAbort 7 "max iterations (10) reached" ∈ (runRounds envW6 10 coreW6).2
    ∧ ∀ e ∈ (runRounds envW6 10 coreW6).2, e.isComplete = false :=
  c6_iteration_cap coreW6 envW6
    { targetIndex := 1, lastTop := 10, iterations := 1, maxIterations := 10, threshold := 10, cb := 7, status := ScrollToStatus.scrolling, pendingHeightUpdate := false }
    (by decide) rfl rfl rfl (by decide)

end VirtualCore

namespace VirtualCore

/-! ### Binary-search correctness and the render range (C2) -/

/-- Specification-side reading of the anchor search from the claim: the
smallest index whose row `bottom` strictly exceeds `scrollTop` (the list
length when there is none), by linear scan. -/
def firstIdxGt (scrollTop : Int) : List ItemPosition → Nat
  | [] => 0
  | p :: rest => if scrollTop < p.bottom then 0 else firstIdxGt scrollTop rest + 1

theorem firstIdxGt_le_length (st : Int) :
    ∀ ps : List ItemPosition, firstIdxGt st ps ≤ ps.length
  | [] => Nat.le_refl 0
  | p :: rest => by
    unfold firstIdxGt
    split
    · simp
    · simpa using firstIdxGt_le_length st rest

theorem firstIdxGt_before (st : Int) :
    ∀ (ps : List ItemPosition) (j : Nat), j < firstIdxGt st ps →
      (pget ps j).bottom ≤ st
  | [], j, hj => by simp [firstIdxGt] at hj
  | p :: rest, j, hj => by
    unfold firstIdxGt at hj
    split at hj
    · omega
    · next hle =>
      cases j with
      | zero =>
        rw [pget_cons_zero]
        omega
      | succ m =>
        rw [pget_cons_succ]
        exact firstIdxGt_before st rest m (by omega)

theorem firstIdxGt_hit (st : Int) :
    ∀ ps : List ItemPosition, firstIdxGt st ps < ps.length →
      st < (pget ps (firstIdxGt st ps)).bottom
  | [], h => by simp [firstIdxGt] at h
  | p :: rest, h => by
    by_cases hlt : st < p.bottom
    · unfold firstIdxGt
      rw [if_pos hlt]
      exact hlt
    · unfold firstIdxGt at h ⊢
      rw [if_neg hlt] at h ⊢
      rw [pget_cons_succ]
      exact firstIdxGt_hit st rest (by simpa using h)

theorem firstGt_unique (ps : List ItemPosition) (st : Int) (a b : Nat)
    (ha1 : st < (pget ps a).bottom) (ha2 : ∀ j, j < a → (pget ps j).bottom ≤ st)
    (hb1 : st < (pget ps b).bottom) (hb2 : ∀ j, j < b → (pget ps j).bottom ≤ st) :
    a = b := by
  rcases Nat.lt_trichotomy a b with h | h | h
  · have := hb2 a h
    omega
  · exact h
  · have := ha2 b h
    omega

theorem findGo_correct (ps : List ItemPosition) (st : Int)
    (hm : ∀ j, j < ps.length → ∀ i, i ≤ j →
      (pget ps i).bottom ≤ (pget ps j).bottom) :
    ∀ (fuel low high : Nat), high + 1 - low ≤ fuel → low ≤ high →
    high < ps.length →
    (∀ j, j < low → (pget ps j).bottom ≤ st) →
    st < (pget ps high).bottom →
    findGo fuel ps st low high ≤ high
    ∧ st < (pget ps (findGo fuel ps st low high)).bottom
    ∧ ∀ j, j < findGo fuel ps st low high → (pget ps j).bottom ≤ st := by
  intro fuel
  induction fuel with
  | zero =>
    intro low high hf hlh _ _ _
    omega
  | succ n ih =>
    intro low high hf hlh hhl hlow hhigh
    unfold findGo
    rw [if_pos hlh]
    dsimp only
    by_cases h1 : st < (pget ps ((low + high) / 2)).bottom
    · rw [if_pos h1]
      by_cases h2 : (low + high) / 2 = 0
      · rw [if_pos h2]
        exact ⟨by omega, h1, fun j hj => by omega⟩
      · rw [if_neg h2]
        by_cases h3 : (pget ps ((low + high) / 2 - 1)).bottom ≤ st
        · rw [if_pos h3]
          refine ⟨by omega, h1, ?_⟩
          intro j hj
          have hjle : (pget ps j).bottom ≤ (pget ps ((low + high) / 2 - 1)).bottom :=
            hm ((low + high) / 2 - 1) (by omega) j (by omega)
          omega
        · rw [if_neg h3]
          have hge : low ≤ (low + high) / 2 - 1 := by
            by_contra hcon
            exact h3 (hlow ((low + high) / 2 - 1) (by omega))
          obtain ⟨r1, r2, r3⟩ := ih low ((low + high) / 2 - 1) (by omega) hge
            (by omega) hlow (not_le.mp h3)
          exact ⟨by omega, r2, r3⟩
    · rw [if_neg h1]
      have hne : (low + high) / 2 ≠ high := by
        intro hEq
        rw [hEq] at h1
        exact h1 hhigh
      have hmidhi : (low + high) / 2 + 1 ≤ high := by omega
      refine ih ((low + high) / 2 + 1) high (by omega) hmidhi hhl ?_ hhigh
      intro j hj
      by_cases hjl : j < low
      · exact hlow j hjl
      · have : (pget ps j).bottom ≤ (pget ps ((low + high) / 2)).bottom :=
          hm ((low + high) / 2) (by omega) j (by omega)
        omega

/-- The claim's description of the anchor search: 0 when
`scrollTop <= 0`, `total` when `scrollTop` is at or beyond the last
row's `bottom`, otherwise the smallest index whose `bottom` strictly
exceeds `scrollTop`. -/
def claimAnchor (vc : VirtualCore) (scrollTop : Int) : Nat :=
  if scrollTop ≤ 0 then 0
  else if (pget vc.positions (vc.total - 1)).bottom ≤ scrollTop then vc.total
  else firstIdxGt scrollTop vc.positions

theorem findStartIndex_eq_claimAnchor (vc : VirtualCore) (st : Int)
    (hlen : vc.positions.length = vc.total) (h0 : 0 < vc.total)
    (hm : ∀ j, j < vc.positions.length → ∀ i, i ≤ j →
      (pget vc.positions i).bottom ≤ (pget vc.positions j).bottom) :
    findStartIndex vc st = claimAnchor vc st := by
  unfold findStartIndex claimAnchor
  rw [if_neg (by omega : ¬ vc.positions.length = 0)]
  dsimp only
  rw [hlen]
  by_cases hst : st ≤ 0
  · rw [if_pos hst, if_pos hst]
  · rw [if_neg hst, if_neg hst]
    by_cases hlast : (pget vc.positions (vc.total - 1)).bottom ≤ st
    · rw [if_pos hlast, if_pos hlast]
    · rw [if_neg hlast, if_neg hlast]
      obtain ⟨hle, hhit, hbefore⟩ := findGo_correct vc.positions st hm
        (vc.total - 1 + 1) 0 (vc.total - 1) (by omega) (by omega) (by omega)
        (by omega) (not_le.mp hlast)
      have hf1 : firstIdxGt st vc.positions < vc.positions.length := by
        by_contra hcon
        exact absurd
          (firstIdxGt_before st vc.positions (vc.total - 1) (by omega)) hlast
      exact firstGt_unique vc.positions st _ _ hhit hbefore
        (firstIdxGt_hit st vc.positions hf1)
        (fun j hj => firstIdxGt_before st vc.positions j hj)

/-- C2: `getRenderRange` postcondition.  For an empty list it returns
`{startIndex := 0, endIndex := -1, offset := 0}`.  Otherwise the anchor
is the smallest index whose row `bottom` strictly exceeds `scrollTop`
(0 when `scrollTop ≤ 0`, `total` when `scrollTop` is at or beyond the
last `bottom`), clamped to `[0, total-1]`;
`startIndex = max(0, anchor - buffer)` (truncated `Nat` subtraction);
`endIndex = min(total-1, endAnchor + buffer)` with `endAnchor` the same
search at `scrollTop + viewHeight`; `offset = positions[startIndex].top`.
The monotone-`bottom` hypothesis holds for every table whose heights are
nonnegative (spec data model: heights are positive). -/
theorem c2_render_range (vc : VirtualCore) (st vh : Int)
    (hlen : vc.positions.length = vc.total)
    (hm : ∀ j, j < vc.positions.length → ∀ i, i ≤ j →
      (pget vc.positions i).bottom ≤ (pget vc.positions j).bottom) :
    (vc.total = 0 →
      getRenderRange vc st vh =
        { startIndex := 0, endIndex := -1, offset := 0, anchorIndex := 0 })
    ∧ (0 < vc.total →
      getRenderRange vc st vh =
        { startIndex := min (claimAnchor vc st) (vc.total - 1) - vc.buffer,
          endIndex := ((min (vc.total - 1) (claimAnchor vc (st + vh) + vc.buffer) : Nat) : Int),
          offset := (pget vc.positions
            (min (claimAnchor vc st) (vc.total - 1) - vc.buffer)).top,
          anchorIndex := min (claimAnchor vc st) (vc.total - 1) }) := by
  constructor
  · intro h0
    unfold getRenderRange
    rw [if_pos h0]
  · intro h0
    unfold getRenderRange
    rw [if_neg (by omega)]
    dsimp only
    rw [findStartIndex_eq_claimAnchor vc st hlen h0 hm,
      findStartIndex_eq_claimAnchor vc (st + vh) hlen h0 hm]

theorem c2_render_range_witness :
    ((create 4 10 none).1.total = 0 →
      getRenderRange (create 4 10 none).1 15 12 =
        { startIndex := 0, endIndex := -1, offset := 0, anchorIndex := 0 })
    ∧ (0 < (create 4 10 none).1.total →
      getRenderRange (create 4 10 none).1 15 12 =
        { startIndex := min (claimAnchor (create 4 10 none).1 15)
              ((create 4 10 none).1.total - 1) - (create 4 10 none).1.buffer,
          endIndex := ((min ((create 4 10 none).1.total - 1)
              (claimAnchor (create 4 10 none).1 (15 + 12) +
               (create 4 10 none).1.buffer) : Nat) : Int),
          offset := (pget (create 4 10 none).1.positions
            (min (claimAnchor (create 4 10 none).1 15)
              ((create 4 10 none).1.total - 1) -
              (create 4 10 none).1.buffer)).top,
          anchorIndex := min (claimAnchor (create 4 10 none).1 15)
            ((create 4 10 none).1.total - 1) }) :=
  c2_render_range (create 4 10 none).1 15 12 (by decide) (by decide)

end VirtualCore
